import Mathlib

/-!
# Verification of the document lifecycle pipeline

A shallow embedding, in Lean 4, of the document upload / storage / extraction /
review subsystem of the `todoapp` repository, together with theorems settling
the frozen claims about its specification.

Embedded source files:
* `src/shared/documents.ts` — shared constants (sizes, MIME allow-list, statuses).
* `src/server/services/file-storage.ts` — `sanitizeFilename`, `saveFile`,
  `getFilePath`, `fileExists` (with `path.posix` semantics for `basename`,
  `normalize`, `join` modelled after the Node `path` library).
* `src/server/services/openrouter.ts` — `extractJSON` and the post-parse
  validation of `extractDataFromText`.
* `src/server/routes/documents.ts` — the upload orchestrator, its input
  validation, and `updateStatus`; plus the repository's second pipeline
  variant of the same router (the `PARSED` / `PARSE_ERROR` variant).
* `src/server/server.ts` — the `GET /api/documents/:id/file` handler.

Strings are modelled as Lean `String`s; JavaScript string routines are
re-implemented on `List Char` (ASCII-faithful: the JS whitespace class is
modelled by its ASCII members, which covers every string these theorems touch).
Machine integers do not overflow in any modelled routine (sizes are at most
10 MiB), so `Nat` is used throughout.
-/

namespace TodoApp

/-! ## JavaScript string primitives -/

/-- The ASCII members of the JS `\s` class (used by `String.prototype.trim`
and by the `\s*` parts of the code-fence regexes). -/
def jsWhitespace (c : Char) : Bool :=
  c = ' ' ∨ c = '\t' ∨ c = '\n' ∨ c = '\r' ∨ c = '\x0b' ∨ c = '\x0c'

/-- JS `String.prototype.trim` on a character list. -/
def jsTrimL (cs : List Char) : List Char :=
  ((cs.dropWhile jsWhitespace).reverse.dropWhile jsWhitespace).reverse

/-- First index (if any) at which `pat` occurs as a contiguous sublist of `cs`;
this is JS `String.prototype.indexOf` restricted to a found/not-found answer. -/
def substrIdx (pat : List Char) : List Char → Option Nat
  | [] => if pat = [] then some 0 else none
  | c :: cs =>
    if pat.isPrefixOf (c :: cs) then some 0
    else (substrIdx pat cs).map (· + 1)

/-- JS `String.prototype.includes`. -/
def hasSubstr (pat cs : List Char) : Bool :=
  (substrIdx pat cs).isSome

/-- Index of the first occurrence of character `c` (JS `indexOf`), if any. -/
def idxOfChar (c : Char) : List Char → Option Nat
  | [] => none
  | d :: ds => if d = c then some 0 else (idxOfChar c ds).map (· + 1)

/-- Index of the last occurrence of character `c` (JS `lastIndexOf`), if any. -/
def lastIdxOfChar (c : Char) (cs : List Char) : Option Nat :=
  (idxOfChar c cs.reverse).map (fun i => cs.length - 1 - i)

/-- Remove the first occurrence of `pat` from `cs`, as
`String.prototype.replace` with a non-global literal pattern and an empty
replacement does; `cs` is returned unchanged when `pat` does not occur. -/
def removeFirstSubstr (pat : List Char) : List Char → List Char
  | [] => []
  | c :: cs =>
    if pat.isPrefixOf (c :: cs) then (c :: cs).drop pat.length
    else c :: removeFirstSubstr pat cs

/-- JS `parseInt(s, 10)` restricted to unsigned decimal inputs: skips leading
whitespace, reads a maximal run of decimal digits, ignores any trailing junk;
`none` models the `NaN` outcome (no digits, or a sign the model leaves out). -/
def jsParseInt (s : String) : Option Nat :=
  let t := (s.toList.dropWhile jsWhitespace).takeWhile Char.isDigit
  if t = [] then none
  else some (t.foldl (fun a c => 10 * a + (c.toNat - 48)) 0)

/-! ## Shared constants — `src/shared/documents.ts` -/

/-- `MAX_FILE_SIZE = 10 * 1024 * 1024` (10 MiB). -/
def MAX_FILE_SIZE : Nat := 10 * 1024 * 1024

/-- `ALLOWED_MIME_TYPES`. -/
def ALLOWED_MIME_TYPES : List String :=
  ["application/pdf", "image/jpeg", "image/png", "image/gif", "text/plain",
   "application/msword",
   "application/vnd.openxmlformats-officedocument.wordprocessingml.document"]

/-! The `DOCUMENT_STATUS` values of the current shared constants module are the
string literals "uploading", "uploaded", "processing", "review", "completed"
and "error"; they are used literally below.  The second pipeline variant also
uses `DOCUMENT_STATUS.PARSED` and `DOCUMENT_STATUS.PARSE_ERROR`, whose string
values come from a constants module not present in the sources. -/

/-- Modelled from the spec: the string value of the `PARSED` status used by the
variant pipeline (the review-pending state of the variant without a review
gate); the constants module defining it is not among the source files. -/
def STATUS_PARSED : String := "parsed"

/-- Modelled from the spec: the string value of the `PARSE_ERROR` status used
by the variant pipeline (failure after the bytes were stored); the constants
module defining it is not among the source files. -/
def STATUS_PARSE_ERROR : String := "parse_error"

/-- One entry of `ExtractedData.lineItems`. -/
structure LineItem where
  description : String
  amount : Int
deriving DecidableEq, Repr

/-- The object produced by `JSON.parse` on the recovered JSON text, viewed
through the fields the `ExtractedData` interface declares.  Each field is
optional at parse time; `extractDataFromText` validates the required ones. -/
structure ParsedObj where
  documentType : Option String := none
  vendor : Option String := none
  amount : Option Int := none
  date : Option String := none
  description : Option String := none
  lineItems : Option (List LineItem) := none
deriving DecidableEq, Repr

/-- The persistent `Document` entity (`src/server/entities/Document.ts`).
The `uploadedAt` timestamp is set once at construction and never read by any
modelled operation, so it is left out of the embedding. -/
structure Document where
  id : Nat
  filename : String
  fileSize : Nat
  mimeType : String
  status : String
  storedPath : Option String := none
  extractedData : Option ParsedObj := none
deriving DecidableEq, Repr

/-! ## AI structured extraction — `src/server/services/openrouter.ts` -/

/-- JS truthiness of an optional string field: `!x` is true exactly when the
field is absent (`undefined`) or the empty string. -/
def jsTruthyStr : Option String → Bool
  | none => false
  | some s => !(s = "")

/-- The body of `extractDataFromText` after the network call: `parsed` is the
outcome of the HTTP request plus `extractJSON` plus `JSON.parse` (an error
there carries the message of the first failing step).  The function then
validates the required fields and wraps every failure in the catch-all
`Failed to extract data from text: ...` message, exactly as the source does. -/
def extractDataFromText (parsed : Except String ParsedObj) : Except String ParsedObj :=
  match parsed with
  | .error e => .error ("Failed to extract data from text: " ++ e)
  | .ok obj =>
    if jsTruthyStr obj.documentType ∧ jsTruthyStr obj.vendor ∧
       jsTruthyStr obj.date ∧ jsTruthyStr obj.description then
      .ok obj
    else
      .error "Failed to extract data from text: Missing required fields in extracted data"

/-- The code-fence stripping step of `extractJSON` (source lines 10-23).

The source tests `cleaned.includes('```json')` and, if so, matches the regex
`/```json\s*([\s\S]*?)\s*```/` and replaces `cleaned` by the trimmed capture
when the match succeeds; otherwise (plain fence present) it does the same with
`/```\s*([\s\S]*?)\s*```/`.  For both regexes a match exists exactly when the
closing fence occurs after the opening literal, and because the capture is
trimmed afterwards, the greedy `\s*` borders are immaterial: the trimmed
capture equals the trimmed text strictly between the end of the opening
literal and the first subsequent occurrence of three backticks.  (The leftmost
viable opening literal is the first occurrence: any later occurrence would
itself supply the closing backticks of the first.)  The model below computes
exactly that. -/
def stripCodeFence (cs : List Char) : List Char :=
  if hasSubstr "```json".toList cs then
    match substrIdx "```json".toList cs with
    | none => cs
    | some i =>
      let rest := cs.drop (i + 7)
      match substrIdx "```".toList rest with
      | none => cs
      | some j => jsTrimL (rest.take j)
  else if hasSubstr "```".toList cs then
    match substrIdx "```".toList cs with
    | none => cs
    | some i =>
      let rest := cs.drop (i + 3)
      match substrIdx "```".toList rest with
      | none => cs
      | some j => jsTrimL (rest.take j)
  else cs

/-- The brace-span step of `extractJSON` (source lines 25-33): the substring
from the first opening brace to the last closing brace, provided the first
strictly precedes the last; otherwise the `No JSON object found` failure. -/
def braceSpan (cs : List Char) : Except String (List Char) :=
  match idxOfChar '\x7b' cs, lastIdxOfChar '\x7d' cs with
  | some firstBrace, some lastBrace =>
    if firstBrace < lastBrace then
      .ok ((cs.drop firstBrace).take (lastBrace + 1 - firstBrace))
    else .error "No JSON object found in response"
  | _, _ => .error "No JSON object found in response"

/-- `extractJSON` from `src/server/services/openrouter.ts`: trim, strip a code
fence if one is present, then always extract the first-`{`-to-last-`}` span. -/
def extractJSON (text : String) : Except String String :=
  (braceSpan (stripCodeFence (jsTrimL text.toList))).map List.asString

/-- The JSON-recovery function as the claim describes it (a second definition,
following the words of the specification, for comparison with the
source-derived `extractJSON`): strip a fenced block if one is present and
return its content for parsing; otherwise take the substring from the first
opening to the last closing brace, failing with the `no JSON object found`
error when no such span exists. -/
def claimedExtractJSON (text : String) : Except String String :=
  let cleaned := jsTrimL text.toList
  if hasSubstr "```json".toList cleaned ∨ hasSubstr "```".toList cleaned then
    .ok (stripCodeFence cleaned).asString
  else
    (braceSpan cleaned).map List.asString

/-! ## File storage — `src/server/services/file-storage.ts`

The Node `path.posix` routines the service calls are modelled component-wise:
a path is split at `'/'` into its nonempty components, `normalize` resolves
`.` and `..` components (a `..` above the start of a relative path is kept,
above the root of an absolute path it is dropped), and `join` concatenates and
normalizes.  Trailing-separator preservation is left out of the model: it
affects neither the `startsWith('..')` / `isAbsolute` tests nor the component
decomposition that the theorems are stated with. -/

/-- Accumulator worker for `splitComps`: `cur` holds the characters of the
component being read, in reverse. -/
def splitCompsAux (cur : List Char) : List Char → List (List Char)
  | [] => if cur = [] then [] else [cur.reverse]
  | c :: cs =>
    if c = '/' then
      (if cur = [] then splitCompsAux [] cs else cur.reverse :: splitCompsAux [] cs)
    else splitCompsAux (c :: cur) cs

/-- The nonempty `'/'`-separated components of a path. -/
def splitComps (cs : List Char) : List (List Char) :=
  splitCompsAux [] cs

/-- Rejoin components with `'/'` separators. -/
def joinComps : List (List Char) → List Char
  | [] => []
  | [c] => c
  | c :: rest => c ++ '/' :: joinComps rest

/-- One step of `path.normalize`: push a component onto the (reversed) stack,
resolving `.` and `..`. -/
def normPush (isAbs : Bool) (stack : List (List Char)) (c : List Char) : List (List Char) :=
  if c = ['.'] then stack
  else if c = ['.', '.'] then
    match stack with
    | [] => if isAbs then [] else [['.', '.']]
    | top :: rest => if top = ['.', '.'] then c :: stack else rest
  else c :: stack

/-- Whether a path is absolute (`path.isAbsolute`, posix). -/
def isAbsolutePath (cs : List Char) : Bool :=
  match cs with
  | [] => false
  | c :: _ => c = '/'

/-- The normalized component list of a path. -/
def normComps (cs : List Char) : List (List Char) :=
  ((splitComps cs).foldl (normPush (isAbsolutePath cs)) []).reverse

/-- `path.posix.normalize` (modulo trailing-separator preservation). -/
def posixNormalize (cs : List Char) : List Char :=
  let comps := normComps cs
  if comps = [] then (if isAbsolutePath cs then ['/'] else ['.'])
  else (if isAbsolutePath cs then '/' :: joinComps comps else joinComps comps)

/-- `path.posix.join` of two segments: concatenate (ignoring an empty segment)
and normalize. -/
def joinPath (a b : List Char) : List Char :=
  if a = [] then posixNormalize b
  else if b = [] then posixNormalize a
  else posixNormalize (a ++ '/' :: b)

/-- The upload root: `process.env.UPLOADS_DIR || './uploads'`, at its default.
Every claim is about the path structure beneath the root, which the value of
the root does not affect. -/
def UPLOADS_DIR : String := "./uploads"

/-- `path.basename` (posix): strip trailing separators, then keep the part
after the last remaining separator; the basename of a separator-only path is
`"/"`, of the empty path `""`. -/
def posixBasename (cs : List Char) : List Char :=
  if cs = [] then []
  else
    let stripped := (cs.reverse.dropWhile (· = '/')).reverse
    if stripped = [] then ['/']
    else (stripped.reverse.takeWhile (· ≠ '/')).reverse

/-- The character class `[a-zA-Z0-9._-]` kept by `sanitizeFilename`. -/
def isSafeChar (c : Char) : Bool :=
  c.isAlpha ∨ c.isDigit ∨ c = '.' ∨ c = '_' ∨ c = '-'

/-- `sanitizeFilename`: `path.basename(filename).replace(/[^a-zA-Z0-9._-]/g, '_')`. -/
def sanitizeFilename (filename : String) : String :=
  ((posixBasename filename.toList).map (fun c => if isSafeChar c then c else '_')).asString

/-- `saveFile(documentId, filename, buffer)`.

`fs.mkdir(dir, recursive)` guarantees that both the upload root and the
per-document directory exist as directories, and `fs.writeFile` fails with
`EISDIR` when its target is an existing directory.  The write target
`join(root, documentId, sanitized)` is one of those two directories exactly
when the sanitized name is `""`, `"."` or `".."` (it cannot contain `'/'`),
so those three names make `saveFile` throw before returning; every other name
is a fresh entry inside the just-created directory.  On success the function
returns `path.join(documentId.toString(), sanitized)`. -/
def saveFile (documentId : Nat) (filename : String) : Except String String :=
  let sanitized := sanitizeFilename filename
  if sanitized = "" ∨ sanitized = "." ∨ sanitized = ".." then
    .error "EISDIR: illegal operation on a directory"
  else
    .ok (joinPath (toString documentId).toList sanitized.toList).asString

/-- `getFilePath(storedPath)` — the read-time containment check: normalize,
reject a normalized path that starts with the two characters `".."` or is
absolute, otherwise join under the upload root. -/
def getFilePath (storedPath : String) : Except String String :=
  let normalized := posixNormalize storedPath.toList
  if "..".toList.isPrefixOf normalized ∨ isAbsolutePath normalized then
    .error "Invalid stored path"
  else
    .ok (joinPath UPLOADS_DIR.toList normalized).asString

/-! ## Upload route — `src/server/routes/documents.ts` -/

/-- The `uploadInput` zod schema: `zfd.file()` refined by
`f.size <= MAX_FILE_SIZE` and `ALLOWED_MIME_TYPES.includes(f.type)` (in that
order).  A browser `File`'s `size` is a non-negative integer, modelled by
`Nat`.  The schema runs before the mutation handler, so a rejected candidate
causes no side effect at all.

Modelled from the spec: the first branch.  The `zfd.file()` preprocessing of
the `zod-form-data` dependency (not among the source files) turns a zero-size
`File` into `undefined`, which then fails the schema — the spec records this
as "size ≤ 0 also rejected upstream by requiring a positive integer". -/
def uploadValidate (size : Nat) (mime : String) : Except String Unit :=
  if size = 0 then
    .error "Expected file, received null"
  else if size > MAX_FILE_SIZE then
    .error "File size exceeds maximum of 10MB"
  else if !(ALLOWED_MIME_TYPES.contains mime) then
    .error ("File type not allowed. Allowed: " ++ ", ".intercalate ALLOWED_MIME_TYPES)
  else
    .ok ()

/-- Outcomes of the three effectful collaborators of one upload run:
whether the disk write fails for a filesystem reason of its own, the result of
`extractTextFromPDF`, and the result of the network-and-parse stage of
`extractDataFromText` (its post-parse validation is deterministic and part of
the model). -/
structure UploadEnv where
  diskFails : Bool
  textResult : Except String String
  aiParsed : Except String ParsedObj

/-- The result of `saveFile` as observed by the orchestrator: an external
filesystem failure, or the outcome of `saveFile` itself. -/
def saveResult (env : UploadEnv) (documentId : Nat) (filename : String) :
    Except String String :=
  if env.diskFails then .error "disk write failed" else saveFile documentId filename

/-- What one run of the upload mutation leaves behind: the final state of the
document record, the `status` value at each `flush` in order, and the value
returned to (or error thrown at) the caller. -/
structure UploadResult where
  doc : Document
  flushed : List String
  outcome : Except String Unit
deriving Repr

/-- The `upload` mutation of `src/server/routes/documents.ts`:
create the record with status `"uploading"` and persist; save the bytes and
persist `storedPath`; advance to `"uploaded"`; for a PDF advance to
`"processing"`, run text extraction then structured extraction, store the
result and advance to `"review"`; any failure inside the `try` is caught,
the status set to `"error"`, persisted, and the error re-thrown wrapped in
`Upload failed: ...`. -/
def upload (env : UploadEnv) (id : Nat) (name mime : String) (size : Nat) :
    UploadResult :=
  let d0 : Document :=
    { id := id, filename := name, fileSize := size, mimeType := mime,
      status := "uploading" }
  match saveResult env id name with
  | .error e =>
    let dE := { d0 with status := "error" }
    ⟨dE, [d0.status, dE.status], .error ("Upload failed: " ++ e)⟩
  | .ok storedPath =>
    let d1 := { d0 with storedPath := some storedPath }
    let d2 := { d1 with status := "uploaded" }
    if mime = "application/pdf" then
      let d3 := { d2 with status := "processing" }
      match env.textResult with
      | .error e =>
        let dE := { d3 with status := "error" }
        ⟨dE, [d0.status, d1.status, d2.status, d3.status, dE.status],
         .error ("Upload failed: " ++ e)⟩
      | .ok _text =>
        match extractDataFromText env.aiParsed with
        | .error e =>
          let dE := { d3 with status := "error" }
          ⟨dE, [d0.status, d1.status, d2.status, d3.status, dE.status],
           .error ("Upload failed: " ++ e)⟩
        | .ok obj =>
          let d4 := { d3 with extractedData := some obj, status := "review" }
          ⟨d4, [d0.status, d1.status, d2.status, d3.status, d4.status], .ok ()⟩
    else
      ⟨d2, [d0.status, d1.status, d2.status], .ok ()⟩

/-- The upload procedure as a whole: input validation, then the mutation body.
A validation failure returns the zod rejection and never creates a record,
writes a file, or flushes anything. -/
def documentsUpload (env : UploadEnv) (id : Nat) (name mime : String) (size : Nat) :
    Except String UploadResult :=
  match uploadValidate size mime with
  | .error e => .error e
  | .ok _ => .ok (upload env id name mime size)

/-- The catch block of the variant `upload` pipeline (the `PARSED` variant):
`PARSE_ERROR` when `document.storedPath` is set, `ERROR` otherwise. -/
def variantCatch (d : Document) (e : String) : UploadResult :=
  let st := if d.storedPath.isSome then STATUS_PARSE_ERROR else "error"
  let dE := { d with status := st }
  ⟨dE, [dE.status], .error ("Upload failed: " ++ e)⟩

/-- The variant `upload` mutation (the repository's second pipeline variant):
after storing the bytes it extracts text first, then advances to
`"processing"`, then runs structured extraction and advances to `PARSED`;
a non-PDF advances to `"uploaded"` only in the else branch; the catch block
distinguishes `PARSE_ERROR` from `ERROR` by `storedPath`.  The `flushed`
trace of `variantCatch` is appended to the flushes already performed. -/
def uploadVariant (env : UploadEnv) (id : Nat) (name mime : String) (size : Nat) :
    UploadResult :=
  let d0 : Document :=
    { id := id, filename := name, fileSize := size, mimeType := mime,
      status := "uploading" }
  match saveResult env id name with
  | .error e =>
    let r := variantCatch d0 e
    ⟨r.doc, [d0.status] ++ r.flushed, r.outcome⟩
  | .ok storedPath =>
    let d1 := { d0 with storedPath := some storedPath }
    if mime = "application/pdf" then
      match env.textResult with
      | .error e =>
        let r := variantCatch d1 e
        ⟨r.doc, [d0.status, d1.status] ++ r.flushed, r.outcome⟩
      | .ok _text =>
        let d2 := { d1 with status := "processing" }
        match extractDataFromText env.aiParsed with
        | .error e =>
          let r := variantCatch d2 e
          ⟨r.doc, [d0.status, d1.status, d2.status] ++ r.flushed, r.outcome⟩
        | .ok obj =>
          let d3 := { d2 with extractedData := some obj, status := STATUS_PARSED }
          ⟨d3, [d0.status, d1.status, d2.status, d3.status], .ok ()⟩
    else
      let d2 := { d1 with status := "uploaded" }
      ⟨d2, [d0.status, d1.status, d2.status], .ok ()⟩

/-! ## Review / approval — `documents.updateStatus` -/

/-- The document table, keyed by id. -/
def Db : Type := Nat → Option Document

/-- The `updateStatus` mutation: look the document up (`findOneOrFail`),
require status `"review"`, set the status to the validated input literal
`"completed"` and persist.  The pair is the value returned to the caller (or
the thrown error) together with the table afterwards. -/
def updateStatus (db : Db) (id : Nat) : Except String Document × Db :=
  match db id with
  | none => (.error "Document not found", db)
  | some doc =>
    if doc.status ≠ "review" then
      (.error "Document must be in review status to complete.", db)
    else
      let doc2 := { doc with status := "completed" }
      (.ok doc2, fun j => if j = id then some doc2 else db j)

/-! ## File serving — `GET /api/documents/:id/file` in `src/server/server.ts` -/

/-- The filesystem visible to the handler: resolved path to file bytes. -/
def Fs : Type := String → Option (List Nat)

/-- An HTTP response as far as the handler shapes one. -/
structure HttpResponse where
  status : Nat
  contentType : Option String := none
  acceptRanges : Option String := none
  contentRange : Option String := none
  contentLength : Option Nat := none
  body : List Nat := []
deriving DecidableEq, Repr

/-- The `Range` branch of the handler, given the file content.  The header is
split as `range.replace(/bytes=/, '').split('-')`; `start` is
`parseInt(parts[0])` and `end` is `parseInt(parts[1])` when `parts[1]` is
truthy, else `fileSize - 1`.  A `NaN` bound or an inverted range makes
`fs.createReadStream` throw, which the surrounding catch turns into a 500;
otherwise the response is a 206 with an inclusive-range stream (reads past the
end of the file are truncated at the end of the file). -/
def rangeResponse (mime : String) (content : List Nat) (range : String) :
    HttpResponse :=
  let fileSize := content.length
  let parts := (removeFirstSubstr "bytes=".toList range.toList).splitOn '-'
  match jsParseInt (parts.headD []).asString with
  | none => { status := 500 }
  | some start =>
    let endVal : Option Nat :=
      match parts.tail.headD [] with
      | [] => some (fileSize - 1)
      | s => jsParseInt s.asString
    match endVal with
    | none => { status := 500 }
    | some e =>
      if start ≤ e then
        { status := 206,
          contentType := some mime,
          acceptRanges := some "bytes",
          contentRange := some ("bytes " ++ toString start ++ "-" ++ toString e
            ++ "/" ++ toString fileSize),
          contentLength := some (e - start + 1),
          body := (content.drop start).take (e - start + 1) }
      else { status := 500 }

/-- The `GET /api/documents/:id/file` handler, for a well-formed numeric id:
404 when the record is absent or has no `storedPath` or the stored file is
missing on disk (`fileExists` treats a `getFilePath` failure as missing);
otherwise a full-file 200 or, with a `Range` header, a 206 sub-range. -/
def serveDocumentFile (db : Db) (fsys : Fs) (id : Nat)
    (rangeHeader : Option String) : HttpResponse :=
  match db id with
  | none => { status := 404 }
  | some doc =>
    match doc.storedPath with
    | none => { status := 404 }
    | some sp =>
      match getFilePath sp with
      | .error _ => { status := 404 }
      | .ok filePath =>
        match fsys filePath with
        | none => { status := 404 }
        | some content =>
          match rangeHeader with
          | some range => rangeResponse doc.mimeType content range
          | none =>
            { status := 200,
              contentType := some doc.mimeType,
              acceptRanges := some "bytes",
              contentLength := some content.length,
              body := content }

/-- Fold a digit list back into a number, continuing from `i`. -/
def parseDecFrom (i : Nat) (l : List Char) : Nat :=
  l.foldl (fun a c => 10 * a + (c.toNat - 48)) i

/-- A well-formed normalization stack (top first): every entry is a nonempty,
separator-free component other than `"."`, and the `".."` entries form a
suffix (they sink to the bottom, i.e. the front of the reversed result). -/
def StackOK (stack : List (List Char)) : Prop :=
  (∀ l ∈ stack, l ≠ [] ∧ '/' ∉ l ∧ l ≠ ['.']) ∧
    ∃ xs ys, stack = xs ++ ys ∧ (∀ l ∈ xs, l ≠ ['.', '.']) ∧
      ∀ l ∈ ys, l = ['.', '.']

/-! ## Supporting lemmas

### Decimal rendering of `Nat`

`documentId.toString()` is modelled by `toString : Nat → String`, which is
`Nat.repr`.  The lemmas below characterize its output (nonempty, digits only)
and prove it injective, via the value computed back from the digit list. -/

theorem digitChar_spec (m : Nat) (hm : m < 10) :
    (Nat.digitChar m).isDigit = true ∧ (Nat.digitChar m).toNat - 48 = m := by
  interval_cases m <;> exact ⟨by decide, by decide⟩

theorem toDigitsCore_spec (fuel : Nat) :
    ∀ n acc, n < fuel →
      ∃ ds, Nat.toDigitsCore 10 fuel n acc = ds ++ acc ∧ ds ≠ [] ∧
        (∀ c ∈ ds, c.isDigit = true) ∧
        ∀ i, parseDecFrom i ds = i * 10 ^ ds.length + n := by
  induction fuel with
  | zero => intro n acc h; omega
  | succ fuel ih =>
    intro n acc _h
    by_cases hq : n / 10 = 0
    · refine ⟨[Nat.digitChar (n % 10)], ?_, by simp, ?_, ?_⟩
      · simp [Nat.toDigitsCore, hq]
      · intro c hc
        rcases List.mem_singleton.mp hc with rfl
        exact (digitChar_spec (n % 10) (Nat.mod_lt n (by omega))).1
      · intro i
        have hlt : n < 10 := (Nat.div_eq_zero_iff (by omega)).mp hq
        have hmod : n % 10 = n := Nat.mod_eq_of_lt hlt
        have hd := (digitChar_spec (n % 10) (Nat.mod_lt n (by omega))).2
        simp only [parseDecFrom, List.foldl_cons, List.foldl_nil]
        rw [hd, hmod]
        simp only [List.length_singleton, pow_one]
        omega
    · have hn10 : 0 < n := Nat.pos_of_ne_zero (by intro h0; simp [h0] at hq)
      have hlt : n / 10 < fuel := by
        have h1 : n / 10 < n := Nat.div_lt_self hn10 (by omega)
        omega
      obtain ⟨ds, heq, hne, hdig, hval⟩ :=
        ih (n / 10) (Nat.digitChar (n % 10) :: acc) hlt
      refine ⟨ds ++ [Nat.digitChar (n % 10)], ?_, by simp, ?_, ?_⟩
      · simp only [Nat.toDigitsCore, hq, if_false]
        rw [heq]; simp
      · intro c hc
        rcases List.mem_append.mp hc with h | h
        · exact hdig c h
        · rcases List.mem_singleton.mp h with rfl
          exact (digitChar_spec (n % 10) (Nat.mod_lt n (by omega))).1
      · intro i
        have hd := (digitChar_spec (n % 10) (Nat.mod_lt n (by omega))).2
        have h1 : parseDecFrom i (ds ++ [Nat.digitChar (n % 10)]) =
            10 * parseDecFrom i ds + ((Nat.digitChar (n % 10)).toNat - 48) := by
          simp only [parseDecFrom, List.foldl_append, List.foldl_cons, List.foldl_nil]
        rw [h1, hd, hval i]
        have h2 : (ds ++ [Nat.digitChar (n % 10)]).length = ds.length + 1 := by simp
        rw [h2]
        calc 10 * (i * 10 ^ ds.length + n / 10) + n % 10
            = i * (10 ^ ds.length * 10) + (10 * (n / 10) + n % 10) := by ring
          _ = i * 10 ^ (ds.length + 1) + n := by rw [pow_succ, Nat.div_add_mod]

theorem natRepr_toList (n : Nat) : (Nat.repr n).toList = Nat.toDigits 10 n := rfl

theorem natRepr_spec (n : Nat) :
    (Nat.repr n).toList ≠ [] ∧ (∀ c ∈ (Nat.repr n).toList, c.isDigit = true) ∧
      parseDecFrom 0 (Nat.repr n).toList = n := by
  obtain ⟨ds, heq, hne, hdig, hval⟩ :=
    toDigitsCore_spec (n + 1) n [] (Nat.lt_succ_self n)
  have h : (Nat.repr n).toList = ds := by
    rw [natRepr_toList]; unfold Nat.toDigits; rw [heq]; simp
  rw [h]
  exact ⟨hne, hdig, by simpa using hval 0⟩

theorem natRepr_injective {n m : Nat} (h : Nat.repr n = Nat.repr m) : n = m := by
  have hn := (natRepr_spec n).2.2
  have hm := (natRepr_spec m).2.2
  rw [← hn, ← hm, h]

theorem toString_nat_eq (n : Nat) : toString n = Nat.repr n := rfl

theorem isDigit_not_special {c : Char} (h : c.isDigit = true) :
    c ≠ '/' ∧ c ≠ '.' ∧ isSafeChar c = true := by
  refine ⟨?_, ?_, ?_⟩
  · rintro rfl; simp at h
  · rintro rfl; simp at h
  · simp [isSafeChar, h]

/-! ### Path components -/

theorem splitCompsAux_append (ys : List Char) :
    ∀ (xs cur : List Char),
      splitCompsAux cur (xs ++ '/' :: ys) =
        splitCompsAux cur xs ++ splitCompsAux [] ys := by
  intro xs
  induction xs with
  | nil =>
    intro cur
    by_cases h : cur = [] <;> simp [splitCompsAux, h]
  | cons x xs ih =>
    intro cur
    by_cases hx : x = '/'
    · subst hx
      by_cases h : cur = [] <;> simp [splitCompsAux, h, ih]
    · simp [splitCompsAux, hx, ih]

theorem splitCompsAux_noSlash :
    ∀ (cs cur : List Char), '/' ∉ cs →
      splitCompsAux cur cs =
        (if cur.reverse ++ cs = [] then [] else [cur.reverse ++ cs]) := by
  intro cs
  induction cs with
  | nil =>
    intro cur _
    by_cases h : cur = [] <;> simp [splitCompsAux, h]
  | cons c cs ih =>
    intro cur hnot
    have hc : c ≠ '/' := fun h => hnot (h ▸ List.mem_cons_self c cs)
    have hcs : '/' ∉ cs := fun h => hnot (List.mem_cons_of_mem c h)
    simp only [splitCompsAux, if_neg hc]
    rw [ih (c :: cur) hcs]
    simp

theorem splitComps_single {c : List Char} (hne : c ≠ []) (hns : '/' ∉ c) :
    splitComps c = [c] := by
  unfold splitComps
  rw [splitCompsAux_noSlash c [] hns]
  simp [hne]

theorem splitComps_mem :
    ∀ (cs cur : List Char), '/' ∉ cur →
      ∀ l ∈ splitCompsAux cur cs, l ≠ [] ∧ '/' ∉ l := by
  intro cs
  induction cs with
  | nil =>
    intro cur hcur l hl
    simp only [splitCompsAux] at hl
    by_cases h : cur = []
    · rw [if_pos h] at hl; cases hl
    · rw [if_neg h, List.mem_singleton] at hl
      subst hl
      exact ⟨by simpa using h, by simpa using hcur⟩
  | cons c cs ih =>
    intro cur hcur l hl
    simp only [splitCompsAux] at hl
    by_cases hc : c = '/'
    · rw [if_pos hc] at hl
      by_cases h : cur = []
      · rw [if_pos h] at hl
        exact ih [] (by simp) l hl
      · rw [if_neg h] at hl
        rcases List.mem_cons.mp hl with heq | hl
        · subst heq
          exact ⟨by simpa using h, by simpa using hcur⟩
        · exact ih [] (by simp) l hl
    · rw [if_neg hc] at hl
      refine ih (c :: cur) ?_ l hl
      intro hmem
      rcases List.mem_cons.mp hmem with heq | hmem
      · exact hc heq.symm
      · exact hcur hmem

theorem joinComps_cons_cons (c d : List Char) (rest : List (List Char)) :
    joinComps (c :: d :: rest) = c ++ '/' :: joinComps (d :: rest) := rfl

theorem splitComps_joinComps :
    ∀ L : List (List Char), (∀ l ∈ L, l ≠ [] ∧ '/' ∉ l) →
      splitComps (joinComps L) = L := by
  intro L
  induction L with
  | nil => intro _; rfl
  | cons c rest ih =>
    intro h
    match rest, ih with
    | [], _ =>
      have hc := h c (List.mem_singleton.mpr rfl)
      simpa [joinComps] using splitComps_single hc.1 hc.2
    | d :: rest, ih =>
      have hc := h c (List.mem_cons_self _ _)
      rw [joinComps_cons_cons]
      unfold splitComps
      rw [splitCompsAux_append, ← splitComps, ← splitComps,
        splitComps_single hc.1 hc.2,
        ih (fun l hl => h l (List.mem_cons_of_mem c hl))]
      simp

theorem joinComps_ne_nil {c : List Char} (hc : c ≠ []) (rest : List (List Char)) :
    joinComps (c :: rest) ≠ [] := by
  cases rest with
  | nil => simpa [joinComps]
  | cons d rest => simp [joinComps_cons_cons, hc]

theorem joinComps_head {c : List Char} (hc : c ≠ []) (rest : List (List Char)) :
    (joinComps (c :: rest)).head? = c.head? := by
  cases rest with
  | nil => rfl
  | cons d rest =>
    rw [joinComps_cons_cons]
    cases c with
    | nil => exact absurd rfl hc
    | cons x xs => rfl

/-! ### Normalization -/

theorem stackOK_nil : StackOK [] := ⟨by simp, [], [], by simp, by simp, by simp⟩

theorem stackOK_push {stack : List (List Char)} {c : List Char} {isAbs : Bool}
    (hs : StackOK stack) (hc : c ≠ [] ∧ '/' ∉ c) :
    StackOK (normPush isAbs stack c) := by
  obtain ⟨hmem, xs, ys, rfl, hxs, hys⟩ := hs
  unfold normPush
  by_cases hdot : c = ['.']
  · rw [if_pos hdot]
    exact ⟨hmem, xs, ys, rfl, hxs, hys⟩
  · rw [if_neg hdot]
    by_cases hdd : c = ['.', '.']
    · rw [if_pos hdd]
      match xs, ys with
      | [], [] =>
        cases isAbs
        · exact ⟨by simp [hdd, hdot, hc.1, hc.2], [], [['.', '.']], by simp [hdd],
            by simp, by simp⟩
        · exact ⟨by simp, [], [], by simp, by simp, by simp⟩
      | [], y :: ys =>
        have hy : y = ['.', '.'] := hys y (List.mem_cons_self _ _)
        simp only [List.nil_append, hy, if_pos rfl]
        refine ⟨?_, [], c :: ['.', '.'] :: ys, by simp, by simp, ?_⟩
        · intro l hl
          rcases List.mem_cons.mp hl with rfl | hl
          · exact ⟨hc.1, hc.2, hdot⟩
          · exact hmem l (by simpa [hy] using hl)
        · intro l hl
          rcases List.mem_cons.mp hl with rfl | hl
          · exact hdd
          · rcases List.mem_cons.mp hl with rfl | hl
            · rfl
            · exact hys l (List.mem_cons_of_mem _ hl)
      | x :: xs, ys =>
        have hx : x ≠ ['.', '.'] := hxs x (List.mem_cons_self _ _)
        simp only [List.cons_append, if_neg hx]
        exact ⟨fun l hl => hmem l (List.mem_cons_of_mem _ hl), xs, ys, rfl,
          fun l hl => hxs l (List.mem_cons_of_mem _ hl), hys⟩
    · rw [if_neg hdd]
      refine ⟨?_, c :: xs, ys, rfl, ?_, hys⟩
      · intro l hl
        rcases List.mem_cons.mp hl with rfl | hl
        · exact ⟨hc.1, hc.2, hdot⟩
        · exact hmem l hl
      · intro l hl
        rcases List.mem_cons.mp hl with rfl | hl
        · exact hdd
        · exact hxs l hl

theorem stackOK_foldl {comps : List (List Char)} {isAbs : Bool} :
    ∀ {stack : List (List Char)}, (∀ l ∈ comps, l ≠ [] ∧ '/' ∉ l) →
      StackOK stack → StackOK (comps.foldl (normPush isAbs) stack) := by
  induction comps with
  | nil => intro stack _ hs; exact hs
  | cons c comps ih =>
    intro stack hcomps hs
    rw [List.foldl_cons]
    exact ih (fun l hl => hcomps l (List.mem_cons_of_mem _ hl))
      (stackOK_push hs (hcomps c (List.mem_cons_self _ _)))

theorem stackOK_normComps (cs : List Char) : StackOK ((normComps cs).reverse) := by
  unfold normComps
  rw [List.reverse_reverse]
  exact stackOK_foldl (fun l hl => splitComps_mem cs [] (by simp) l hl) stackOK_nil

/-- Every normalized component is nonempty, separator-free and not `"."`. -/
theorem normComps_mem {cs : List Char} {l : List Char} (hl : l ∈ normComps cs) :
    l ≠ [] ∧ '/' ∉ l ∧ l ≠ ['.'] :=
  (stackOK_normComps cs).1 l (List.mem_reverse.mpr hl)

/-- After normalization, `".."` components form a prefix of the result. -/
theorem normComps_dots (cs : List Char) :
    ∃ ds rest, normComps cs = ds ++ rest ∧ (∀ l ∈ ds, l = ['.', '.']) ∧
      ∀ l ∈ rest, l ≠ ['.', '.'] := by
  obtain ⟨_, xs, ys, hsplit, hxs, hys⟩ := stackOK_normComps cs
  refine ⟨ys.reverse, xs.reverse, ?_, ?_, ?_⟩
  · have := congrArg List.reverse hsplit
    rw [List.reverse_reverse, List.reverse_append] at this
    exact this
  · intro l hl; exact hys l (List.mem_reverse.mp hl)
  · intro l hl; exact hxs l (List.mem_reverse.mp hl)

/-- If the first normalized component is not `".."`, no component is. -/
theorem normComps_noDots {cs : List Char} {c : List Char} {rest : List (List Char)}
    (h : normComps cs = c :: rest) (hc : c ≠ ['.', '.']) :
    ['.', '.'] ∉ normComps cs := by
  obtain ⟨ds, tail, hsplit, hds, htail⟩ := normComps_dots cs
  match ds, hds with
  | [], _ =>
    rw [List.nil_append] at hsplit
    intro hmem
    exact htail _ (hsplit ▸ hmem) rfl
  | d :: ds, hds =>
    exfalso
    apply hc
    have : c = d := by
      rw [h, List.cons_append] at hsplit
      exact (List.cons.injEq .. ▸ hsplit).1
    rw [this]
    exact hds d (List.mem_cons_self _ _)

/-- Folding components that are not `"."` or `".."` just pushes them all. -/
theorem foldl_normPush_clean {isAbs : Bool} :
    ∀ (comps : List (List Char)) (stack : List (List Char)),
      (∀ l ∈ comps, l ≠ ['.'] ∧ l ≠ ['.', '.']) →
      comps.foldl (normPush isAbs) stack = comps.reverse ++ stack := by
  intro comps
  induction comps with
  | nil => intro stack _; simp
  | cons c comps ih =>
    intro stack h
    have hc := h c (List.mem_cons_self _ _)
    rw [List.foldl_cons]
    have hpush : normPush isAbs stack c = c :: stack := by
      unfold normPush
      rw [if_neg hc.1, if_neg hc.2]
    rw [hpush, ih (c :: stack) (fun l hl => h l (List.mem_cons_of_mem _ hl))]
    simp

/-! ### Sanitized names, stored paths and resolution -/

theorem sanitizeFilename_safe (name : String) :
    ∀ c ∈ (sanitizeFilename name).toList, isSafeChar c = true := by
  intro c hc
  have : (sanitizeFilename name).toList =
      (posixBasename name.toList).map (fun c => if isSafeChar c then c else '_') := rfl
  rw [this] at hc
  obtain ⟨x, _, hx⟩ := List.mem_map.mp hc
  by_cases h : isSafeChar x = true
  · rw [← hx, if_pos h]; exact h
  · rw [← hx, if_neg h]; decide

theorem isSafeChar_ne_slash {c : Char} (h : isSafeChar c = true) : c ≠ '/' := by
  rintro rfl
  simp [isSafeChar] at h

/-- The strings a component list equality needs: `String` equality is `toList`
equality. -/
theorem string_eq_iff_toList {s t : String} : s = t ↔ s.toList = t.toList := by
  constructor
  · rintro rfl; rfl
  · intro h
    cases s with
    | mk d1 =>
      cases t with
      | mk d2 =>
        have hd : d1 = d2 := h
        rw [hd]

theorem toList_asString (l : List Char) : (List.asString l).toList = l := rfl

/-- The decimal rendering of a record id: nonempty, digits only, hence
separator-free and not `"."` or `".."`. -/
theorem idStr_props (id : Nat) :
    (toString id).toList ≠ [] ∧ '/' ∉ (toString id).toList ∧
      (toString id).toList ≠ ['.'] ∧ (toString id).toList ≠ ['.', '.'] := by
  rw [toString_nat_eq]
  obtain ⟨hne, hdig, _⟩ := natRepr_spec id
  refine ⟨hne, ?_, ?_, ?_⟩
  · intro hmem
    exact (isDigit_not_special (hdig '/' hmem)).1 rfl
  · intro h
    have : '.' ∈ (Nat.repr id).toList := by rw [h]; simp
    exact (isDigit_not_special (hdig '.' this)).2.1 rfl
  · intro h
    have : '.' ∈ (Nat.repr id).toList := by rw [h]; simp
    exact (isDigit_not_special (hdig '.' this)).2.1 rfl

/-- A successful `saveFile` returns literally `"{id}/{sanitized}"`, with the
sanitized name none of `""`, `"."`, `".."`. -/
theorem saveFile_ok_shape {id : Nat} {name p : String}
    (h : saveFile id name = .ok p) :
    (sanitizeFilename name).toList ≠ [] ∧
    (sanitizeFilename name).toList ≠ ['.'] ∧
    (sanitizeFilename name).toList ≠ ['.', '.'] ∧
    '/' ∉ (sanitizeFilename name).toList ∧
    p.toList = (toString id).toList ++ '/' :: (sanitizeFilename name).toList := by
  unfold saveFile at h
  by_cases hbad : sanitizeFilename name = "" ∨ sanitizeFilename name = "." ∨
      sanitizeFilename name = ".."
  · rw [if_pos hbad] at h; cases h
  · rw [if_neg hbad] at h
    push_neg at hbad
    have h1 : (sanitizeFilename name).toList ≠ [] := by
      intro hc; exact hbad.1 (string_eq_iff_toList.mpr hc)
    have h2 : (sanitizeFilename name).toList ≠ ['.'] := by
      intro hc; exact hbad.2.1 (string_eq_iff_toList.mpr hc)
    have h3 : (sanitizeFilename name).toList ≠ ['.', '.'] := by
      intro hc; exact hbad.2.2 (string_eq_iff_toList.mpr hc)
    have h4 : '/' ∉ (sanitizeFilename name).toList := by
      intro hc
      exact isSafeChar_ne_slash (sanitizeFilename_safe name '/' hc) rfl
    refine ⟨h1, h2, h3, h4, ?_⟩
    have hid := idStr_props id
    have hp : p = (joinPath (toString id).toList
        (sanitizeFilename name).toList).asString := by
      exact (Except.ok.injEq .. ▸ h).symm
    rw [hp, toList_asString]
    unfold joinPath
    rw [if_neg hid.1, if_neg h1]
    unfold posixNormalize
    have habs : isAbsolutePath ((toString id).toList ++ '/' ::
        (sanitizeFilename name).toList) = false := by
      obtain ⟨hne, hslash, -, -⟩ := hid
      cases hh : (toString id).toList with
      | nil => exact absurd hh hne
      | cons x xs =>
        have hx : x.isDigit = true :=
          (natRepr_spec id).2.1 x
            (show x ∈ (toString id).toList by
              rw [hh]; exact List.mem_cons_self x xs)
        simp only [List.cons_append, isAbsolutePath]
        by_contra hcon
        simp at hcon
        subst hcon
        simp at hx
    have hcomps : normComps ((toString id).toList ++ '/' ::
        (sanitizeFilename name).toList) =
        [(toString id).toList, (sanitizeFilename name).toList] := by
      unfold normComps
      have hsplit : splitComps ((toString id).toList ++ '/' ::
          (sanitizeFilename name).toList) =
          [(toString id).toList, (sanitizeFilename name).toList] := by
        unfold splitComps
        rw [splitCompsAux_append, ← splitComps, ← splitComps,
          splitComps_single hid.1 hid.2.1, splitComps_single h1 h4]
        rfl
      rw [hsplit, foldl_normPush_clean _ _ ?_]
      · simp
      · intro l hl
        rcases List.mem_cons.mp hl with rfl | hl
        · exact ⟨hid.2.2.1, hid.2.2.2⟩
        · rcases List.mem_cons.mp hl with rfl | hl
          · exact ⟨h2, h3⟩
          · cases hl
    rw [habs, hcomps]
    simp [joinComps_cons_cons, joinComps]

/-- `getFilePath` rejects exactly the inputs whose normalization starts with
the two characters `".."` or is absolute. -/
theorem getFilePath_error_iff (sp : String) :
    (∃ e, getFilePath sp = .error e) ↔
      (['.', '.'].isPrefixOf (posixNormalize sp.toList) = true ∨
        isAbsolutePath (posixNormalize sp.toList) = true) := by
  unfold getFilePath
  by_cases h : "..".toList.isPrefixOf (posixNormalize sp.toList) = true ∨
      isAbsolutePath (posixNormalize sp.toList) = true
  · rw [if_pos h]
    exact ⟨fun _ => h, fun _ => ⟨"Invalid stored path", rfl⟩⟩
  · rw [if_neg h]
    constructor
    · rintro ⟨e, he⟩; cases he
    · intro hc; exact absurd hc h

/-- An accepted stored path resolves to `"uploads/" ++ the normalized
components`: the result is the upload root followed by the traversal-free
component list of the input. -/
theorem getFilePath_ok_shape {sp q : String} (h : getFilePath sp = .ok q) :
    ['.', '.'] ∉ normComps sp.toList ∧
      splitComps q.toList = "uploads".toList :: normComps sp.toList := by
  unfold getFilePath at h
  by_cases hrej : "..".toList.isPrefixOf (posixNormalize sp.toList) = true ∨
      isAbsolutePath (posixNormalize sp.toList) = true
  · rw [if_pos hrej] at h; cases h
  · rw [if_neg hrej] at h
    push_neg at hrej
    have hq : q = (joinPath UPLOADS_DIR.toList (posixNormalize sp.toList)).asString :=
      (Except.ok.injEq .. ▸ h).symm
    have habs : isAbsolutePath sp.toList = false := by
      by_contra hcon
      simp only [Bool.not_eq_false] at hcon
      apply hrej.2
      unfold posixNormalize
      by_cases hc : normComps sp.toList = []
      · rw [if_pos hc, hcon]; rfl
      · rw [if_neg hc, hcon]; rfl
    cases hcomps : normComps sp.toList with
    | nil =>
      constructor
      · simp
      · have hnorm : posixNormalize sp.toList = ['.'] := by
          unfold posixNormalize
          rw [hcomps, if_pos rfl, habs]
          simp
        rw [hq, hnorm, toList_asString]
        decide
    | cons c rest =>
      have hcnd : c ≠ ['.', '.'] := by
        rintro rfl
        apply hrej.1
        have hnorm : posixNormalize sp.toList = joinComps (['.', '.'] :: rest) := by
          unfold posixNormalize
          rw [hcomps, if_neg (by simp), habs]
          simp
        rw [hnorm]
        cases rest with
        | nil => decide
        | cons d ds =>
          rw [joinComps_cons_cons, List.isPrefixOf_iff_prefix]
          exact List.prefix_append _ _
      have hnodots : ['.', '.'] ∉ normComps sp.toList := normComps_noDots hcomps hcnd
      refine ⟨hcomps ▸ hnodots, ?_⟩
      have hmem : ∀ l ∈ normComps sp.toList, l ≠ [] ∧ '/' ∉ l ∧ l ≠ ['.'] :=
        fun l hl => normComps_mem hl
      have hnorm : posixNormalize sp.toList = joinComps (c :: rest) := by
        unfold posixNormalize
        rw [hcomps, if_neg (by simp), habs]
        simp
      have hcne : c ≠ [] := (hmem c (by rw [hcomps]; simp)).1
      have hjoin_ne : joinComps (c :: rest) ≠ [] := joinComps_ne_nil hcne rest
      rw [hq, hnorm, toList_asString]
      unfold joinPath
      rw [if_neg (by decide), if_neg hjoin_ne]
      unfold posixNormalize
      have hsplit2 : splitComps (UPLOADS_DIR.toList ++ '/' :: joinComps (c :: rest)) =
          [['.'], "uploads".toList] ++ (c :: rest) := by
        unfold splitComps
        rw [splitCompsAux_append]
        have e1 : splitCompsAux [] UPLOADS_DIR.toList = [['.'], "uploads".toList] := by
          decide
        have e2 : splitCompsAux [] (joinComps (c :: rest)) = c :: rest := by
          refine splitComps_joinComps (c :: rest) ?_
          intro l hl
          have hl2 := hmem l (by rw [hcomps]; exact hl)
          exact ⟨hl2.1, hl2.2.1⟩
        rw [e1, e2]
      have habs2 : isAbsolutePath (UPLOADS_DIR.toList ++ '/' :: joinComps (c :: rest)) =
          false := rfl
      have hcomps2 : normComps (UPLOADS_DIR.toList ++ '/' :: joinComps (c :: rest)) =
          "uploads".toList :: c :: rest := by
        unfold normComps
        rw [hsplit2, habs2]
        rw [List.foldl_append]
        have hstack : List.foldl (normPush false) [] [['.'], "uploads".toList] =
            ["uploads".toList] := by decide
        rw [hstack, foldl_normPush_clean (c :: rest) _ ?_]
        · simp
        · intro l hl
          have h1 := hmem l (by rw [hcomps]; exact hl)
          constructor
          · exact h1.2.2
          · intro hc2
            exact hnodots (by rw [hcomps, ← hc2]; exact hl)
      rw [habs2, hcomps2, if_neg (by simp)]
      apply splitComps_joinComps
      intro l hl
      rcases List.mem_cons.mp hl with rfl | hl
      · constructor <;> decide
      · have := hmem l (by rw [hcomps]; exact hl)
        exact ⟨this.1, this.2.1⟩

/-! ### Miscellaneous helpers for the claim theorems -/

/-- Two one-separator paths with separator-free first segments agree
segment-wise. -/
theorem append_slash_inj :
    ∀ (u1 : List Char) {v1 u2 v2 : List Char}, '/' ∉ u1 → '/' ∉ u2 →
      u1 ++ '/' :: v1 = u2 ++ '/' :: v2 → u1 = u2 ∧ v1 = v2 := by
  intro u1
  induction u1 with
  | nil =>
    intro v1 u2 v2 _ hu2 h
    cases u2 with
    | nil => simpa using h
    | cons y ys =>
      simp only [List.nil_append, List.cons_append, List.cons.injEq] at h
      exact absurd (h.1 ▸ List.mem_cons_self y ys) hu2
  | cons x xs ih =>
    intro v1 u2 v2 hu1 hu2 h
    cases u2 with
    | nil =>
      simp only [List.cons_append, List.nil_append, List.cons.injEq] at h
      exact absurd (h.1 ▸ List.mem_cons_self x xs) hu1
    | cons y ys =>
      simp only [List.cons_append, List.cons.injEq] at h
      obtain ⟨rfl, h2⟩ := h
      obtain ⟨h3, h4⟩ := ih (fun hm => hu1 (List.mem_cons_of_mem _ hm))
        (fun hm => hu2 (List.mem_cons_of_mem _ hm)) h2
      exact ⟨by rw [h3], h4⟩

/-- JS truthiness of an optional string, spelled out. -/
theorem jsTruthyStr_iff (o : Option String) :
    jsTruthyStr o = true ↔ o ≠ none ∧ o ≠ some "" := by
  cases o with
  | none => simp [jsTruthyStr]
  | some s =>
    simp only [jsTruthyStr, Bool.not_eq_true', decide_eq_false_iff_not]
    constructor
    · intro h; exact ⟨by simp, by simpa using h⟩
    · intro h; simpa using h.2

/-- The first char index found by `idxOfChar` decomposes the list. -/
theorem idxOfChar_decomp {ch : Char} :
    ∀ {cs : List Char} {i : Nat}, idxOfChar ch cs = some i →
      ∃ pre post, cs = pre ++ ch :: post ∧ pre.length = i ∧ ch ∉ pre := by
  intro cs
  induction cs with
  | nil => intro i h; cases h
  | cons d ds ih =>
    intro i h
    simp only [idxOfChar] at h
    by_cases hd : d = ch
    · rw [if_pos hd] at h
      cases h
      exact ⟨[], ds, by simp [hd], rfl, by simp⟩
    · rw [if_neg hd] at h
      cases hidx : idxOfChar ch ds with
      | none => rw [hidx] at h; cases h
      | some i' =>
        rw [hidx] at h
        simp only [Option.map_some'] at h
        obtain ⟨pre, post, hsplit, hlen, hmem⟩ := ih hidx
        refine ⟨d :: pre, post, by simp [hsplit], ?_, ?_⟩
        · injection h with h
          simp only [List.length_cons, hlen]
          exact h
        · intro hc
          rcases List.mem_cons.mp hc with heq | hc
          · exact hd heq.symm
          · exact hmem hc

/-- The last char index found by `lastIdxOfChar` decomposes the list. -/
theorem lastIdxOfChar_decomp {ch : Char} {cs : List Char} {j : Nat}
    (h : lastIdxOfChar ch cs = some j) :
    ∃ pre post, cs = pre ++ ch :: post ∧ pre.length = j ∧ ch ∉ post := by
  unfold lastIdxOfChar at h
  cases hidx : idxOfChar ch cs.reverse with
  | none => rw [hidx] at h; cases h
  | some i =>
    rw [hidx] at h
    simp only [Option.map_some', Option.some.injEq] at h
    obtain ⟨pre, post, hsplit, hlen, hmem⟩ := idxOfChar_decomp hidx
    refine ⟨post.reverse, pre.reverse, ?_, ?_, by simpa using hmem⟩
    · have := congrArg List.reverse hsplit
      rw [List.reverse_reverse] at this
      rw [this]
      simp
    · have hcslen : cs.length = pre.length + post.length + 1 := by
        have := congrArg List.length hsplit
        simpa [List.length_reverse] using this
      rw [List.length_reverse]
      omega

/-- A successful brace-span extraction starts with the opening and ends with
the closing brace. -/
theorem braceSpan_ok_shape {cs s : List Char} (h : braceSpan cs = .ok s) :
    s.head? = some '\x7b' ∧ s.getLast? = some '\x7d' := by
  unfold braceSpan at h
  cases hf : idxOfChar '\x7b' cs with
  | none => rw [hf] at h; cases h
  | some f =>
    cases hj : lastIdxOfChar '\x7d' cs with
    | none => rw [hf, hj] at h; cases h
    | some j =>
      rw [hf, hj] at h
      have h' : (if f < j then Except.ok ((cs.drop f).take (j + 1 - f))
          else (Except.error "No JSON object found in response" :
            Except String (List Char))) = Except.ok s := h
      by_cases hlt : f < j
      · rw [if_pos hlt] at h'
        have hs : s = (cs.drop f).take (j + 1 - f) := ((Except.ok.injEq .. ▸ h')).symm
        constructor
        · obtain ⟨a, b, hsplit, hlen, -⟩ := idxOfChar_decomp hf
          have hdrop : cs.drop f = '\x7b' :: b := by
            rw [hsplit, ← hlen, List.drop_left]
          have hone : j + 1 - f = (j - f) + 1 := by omega
          rw [hs, hdrop, hone]
          rfl
        · obtain ⟨c, d, hsplit, hlen, -⟩ := lastIdxOfChar_decomp hj
          have hdrop : cs.drop f = (c.drop f) ++ '\x7d' :: d := by
            rw [hsplit]
            exact List.drop_append_of_le_length (by omega)
          have hlen2 : j + 1 - f = (c.drop f).length + 1 := by
            rw [List.length_drop]
            omega
          rw [hs, hdrop, hlen2, List.take_append]
          simp
      · rw [if_neg hlt] at h'; cases h'

/-- Branch reduction for `updateStatus`: found document in review state. -/
theorem updateStatus_found_review {db : Db} {id : Nat} {doc : Document}
    (hdb : db id = some doc) (h : doc.status = "review") :
    updateStatus db id = (.ok { doc with status := "completed" },
      fun j => if j = id then some { doc with status := "completed" } else db j) := by
  simp only [updateStatus, hdb]
  rw [if_neg (by simpa using h)]

/-- Branch reduction for `updateStatus`: found document not in review state. -/
theorem updateStatus_found_other {db : Db} {id : Nat} {doc : Document}
    (hdb : db id = some doc) (h : doc.status ≠ "review") :
    updateStatus db id =
      (.error "Document must be in review status to complete.", db) := by
  simp only [updateStatus, hdb]
  rw [if_pos (by simpa using h)]

/-- A successful structured extraction has all four required fields present. -/
theorem extractDataFromText_ok_fields {p : Except String ParsedObj} {obj : ParsedObj}
    (h : extractDataFromText p = .ok obj) :
    obj.documentType ≠ none ∧ obj.vendor ≠ none ∧ obj.date ≠ none ∧
      obj.description ≠ none := by
  cases p with
  | error e => simp [extractDataFromText] at h
  | ok o =>
    simp only [extractDataFromText] at h
    by_cases hc : jsTruthyStr o.documentType ∧ jsTruthyStr o.vendor ∧
        jsTruthyStr o.date ∧ jsTruthyStr o.description
    · rw [if_pos hc] at h
      cases h
      obtain ⟨h1, h2, h3, h4⟩ := hc
      exact ⟨((jsTruthyStr_iff _).mp h1).1, ((jsTruthyStr_iff _).mp h2).1,
        ((jsTruthyStr_iff _).mp h3).1, ((jsTruthyStr_iff _).mp h4).1⟩
    · rw [if_neg hc] at h
      cases h

/-- Branch reduction for `upload`: the disk write fails. -/
theorem upload_save_error {env : UploadEnv} {id : Nat} {name e : String}
    (mime : String) (size : Nat) (h : saveResult env id name = .error e) :
    upload env id name mime size =
      ⟨{ id := id, filename := name, fileSize := size, mimeType := mime,
         status := "error" },
       ["uploading", "error"], .error ("Upload failed: " ++ e)⟩ := by
  simp only [upload, h]

/-- Branch reduction for `upload`: stored non-PDF terminates at uploaded. -/
theorem upload_nonpdf_ok {env : UploadEnv} {id : Nat} {name sp : String}
    (mime : String) (size : Nat) (h : saveResult env id name = .ok sp)
    (hm : mime ≠ "application/pdf") :
    upload env id name mime size =
      ⟨{ id := id, filename := name, fileSize := size, mimeType := mime,
         status := "uploaded", storedPath := some sp },
       ["uploading", "uploading", "uploaded"], .ok ()⟩ := by
  simp only [upload, h]
  rw [if_neg hm]

/-- Branch reduction for `upload`: stored PDF, text extraction fails. -/
theorem upload_pdf_text_error {env : UploadEnv} {id : Nat} {name sp e : String}
    (size : Nat) (h : saveResult env id name = .ok sp)
    (ht : env.textResult = .error e) :
    upload env id name "application/pdf" size =
      ⟨{ id := id, filename := name, fileSize := size,
         mimeType := "application/pdf", status := "error",
         storedPath := some sp },
       ["uploading", "uploading", "uploaded", "processing", "error"],
       .error ("Upload failed: " ++ e)⟩ := by
  simp only [upload, h, ht]
  rw [if_pos trivial]

/-- Branch reduction for `upload`: stored PDF, structured extraction fails. -/
theorem upload_pdf_ai_error {env : UploadEnv} {id : Nat} {name sp t e : String}
    (size : Nat) (h : saveResult env id name = .ok sp)
    (ht : env.textResult = .ok t)
    (ha : extractDataFromText env.aiParsed = .error e) :
    upload env id name "application/pdf" size =
      ⟨{ id := id, filename := name, fileSize := size,
         mimeType := "application/pdf", status := "error",
         storedPath := some sp },
       ["uploading", "uploading", "uploaded", "processing", "error"],
       .error ("Upload failed: " ++ e)⟩ := by
  simp only [upload, h, ht, ha]
  rw [if_pos trivial]

/-- Branch reduction for `upload`: stored PDF, both extractions succeed. -/
theorem upload_pdf_ok {env : UploadEnv} {id : Nat} {name sp t : String}
    {obj : ParsedObj} (size : Nat) (h : saveResult env id name = .ok sp)
    (ht : env.textResult = .ok t)
    (ha : extractDataFromText env.aiParsed = .ok obj) :
    upload env id name "application/pdf" size =
      ⟨{ id := id, filename := name, fileSize := size,
         mimeType := "application/pdf", status := "review",
         storedPath := some sp, extractedData := some obj },
       ["uploading", "uploading", "uploaded", "processing", "review"],
       .ok ()⟩ := by
  simp only [upload, h, ht, ha]
  rw [if_pos trivial]

/-- Branch reduction for the variant `upload`: the disk write fails. -/
theorem uploadVariant_save_error {env : UploadEnv} {id : Nat} {name e : String}
    (mime : String) (size : Nat) (h : saveResult env id name = .error e) :
    uploadVariant env id name mime size =
      ⟨{ id := id, filename := name, fileSize := size, mimeType := mime,
         status := "error" },
       ["uploading", "error"], .error ("Upload failed: " ++ e)⟩ := by
  simp only [uploadVariant, variantCatch, h]
  rfl

/-- Branch reduction for the variant `upload`: stored non-PDF. -/
theorem uploadVariant_nonpdf_ok {env : UploadEnv} {id : Nat} {name sp : String}
    (mime : String) (size : Nat) (h : saveResult env id name = .ok sp)
    (hm : mime ≠ "application/pdf") :
    uploadVariant env id name mime size =
      ⟨{ id := id, filename := name, fileSize := size, mimeType := mime,
         status := "uploaded", storedPath := some sp },
       ["uploading", "uploading", "uploaded"], .ok ()⟩ := by
  simp only [uploadVariant, h]
  rw [if_neg hm]

/-- Branch reduction for the variant `upload`: stored PDF, text extraction
fails; stored bytes make the catch pick `PARSE_ERROR`. -/
theorem uploadVariant_pdf_text_error {env : UploadEnv} {id : Nat}
    {name sp e : String} (size : Nat) (h : saveResult env id name = .ok sp)
    (ht : env.textResult = .error e) :
    uploadVariant env id name "application/pdf" size =
      ⟨{ id := id, filename := name, fileSize := size,
         mimeType := "application/pdf", status := STATUS_PARSE_ERROR,
         storedPath := some sp },
       ["uploading", "uploading", STATUS_PARSE_ERROR],
       .error ("Upload failed: " ++ e)⟩ := by
  simp only [uploadVariant, variantCatch, h, ht]
  rw [if_pos trivial]
  rfl

/-- Branch reduction for the variant `upload`: stored PDF, structured
extraction fails; the catch picks `PARSE_ERROR`. -/
theorem uploadVariant_pdf_ai_error {env : UploadEnv} {id : Nat}
    {name sp t e : String} (size : Nat) (h : saveResult env id name = .ok sp)
    (ht : env.textResult = .ok t)
    (ha : extractDataFromText env.aiParsed = .error e) :
    uploadVariant env id name "application/pdf" size =
      ⟨{ id := id, filename := name, fileSize := size,
         mimeType := "application/pdf", status := STATUS_PARSE_ERROR,
         storedPath := some sp },
       ["uploading", "uploading", "processing", STATUS_PARSE_ERROR],
       .error ("Upload failed: " ++ e)⟩ := by
  simp only [uploadVariant, variantCatch, h, ht, ha]
  rw [if_pos trivial]
  rfl

/-- Branch reduction for the variant `upload`: stored PDF, both extractions
succeed, terminating at `PARSED`. -/
theorem uploadVariant_pdf_ok {env : UploadEnv} {id : Nat} {name sp t : String}
    {obj : ParsedObj} (size : Nat) (h : saveResult env id name = .ok sp)
    (ht : env.textResult = .ok t)
    (ha : extractDataFromText env.aiParsed = .ok obj) :
    uploadVariant env id name "application/pdf" size =
      ⟨{ id := id, filename := name, fileSize := size,
         mimeType := "application/pdf", status := STATUS_PARSED,
         storedPath := some sp, extractedData := some obj },
       ["uploading", "uploading", "processing", STATUS_PARSED], .ok ()⟩ := by
  simp only [uploadVariant, h, ht, ha]
  rw [if_pos trivial]

/-- A decimal id rendering followed by anything is not an absolute path. -/
theorem idStr_append_not_abs (id : Nat) (rest : List Char) :
    isAbsolutePath ((toString id).toList ++ rest) = false := by
  cases hh : (toString id).toList with
  | nil => exact absurd hh (idStr_props id).1
  | cons x xs =>
    have hx : x.isDigit = true :=
      (natRepr_spec id).2.1 x
        (show x ∈ (toString id).toList by
          rw [hh]; exact List.mem_cons_self x xs)
    simp only [List.cons_append, isAbsolutePath]
    exact decide_eq_false (fun hc => by
      rw [hc] at hx
      exact absurd hx (by decide))

/-- A list starting with a decimal digit has no `".."` prefix. -/
theorem not_dotdot_prefix_of_digit {x : Char} (hx : x.isDigit = true)
    (t : List Char) : ['.', '.'].isPrefixOf (x :: t) = false := by
  have hxd : x ≠ '.' := (isDigit_not_special hx).2.1
  simp only [List.isPrefixOf, Bool.and_eq_false_iff]
  left
  exact beq_eq_false_iff_ne.mpr (fun hc => hxd hc.symm)

/-- The component split of a successful `saveFile` result. -/
theorem saveFile_ok_split {id : Nat} {name p : String}
    (h : saveFile id name = .ok p) :
    splitComps p.toList =
      [(toString id).toList, (sanitizeFilename name).toList] := by
  obtain ⟨h1, -, -, h4, hp⟩ := saveFile_ok_shape h
  have hid := idStr_props id
  rw [hp]
  unfold splitComps
  rw [splitCompsAux_append, ← splitComps, ← splitComps,
    splitComps_single hid.1 hid.2.1, splitComps_single h1 h4]
  rfl

/-- The `Range: bytes=0-99` branch of the file handler, evaluated. -/
theorem rangeResponse_0_99 (mime : String) (content : List Nat) :
    rangeResponse mime content "bytes=0-99" =
      { status := 206, contentType := some mime, acceptRanges := some "bytes",
        contentRange := some ("bytes 0-99/" ++ toString content.length),
        contentLength := some 100, body := content.take 100 } := rfl

/-- Branch reduction for the file handler: full-file response. -/
theorem serve_found_full {db : Db} {fsys : Fs} {id : Nat} {doc : Document}
    {sp fp : String} {content : List Nat} (hdb : db id = some doc)
    (hsp : doc.storedPath = some sp) (hfp : getFilePath sp = .ok fp)
    (hcont : fsys fp = some content) :
    serveDocumentFile db fsys id none =
      { status := 200, contentType := some doc.mimeType,
        acceptRanges := some "bytes", contentRange := none,
        contentLength := some content.length, body := content } := by
  simp only [serveDocumentFile, hdb, hsp, hfp, hcont]

/-- Branch reduction for the file handler: ranged response. -/
theorem serve_found_range {db : Db} {fsys : Fs} {id : Nat} {doc : Document}
    {sp fp : String} {content : List Nat} (range : String)
    (hdb : db id = some doc) (hsp : doc.storedPath = some sp)
    (hfp : getFilePath sp = .ok fp) (hcont : fsys fp = some content) :
    serveDocumentFile db fsys id (some range) =
      rangeResponse doc.mimeType content range := by
  simp only [serveDocumentFile, hdb, hsp, hfp, hcont]

/-! ## Claim theorems -/

/-- C3: for every document, the review/approval operation
`documents.updateStatus` succeeds exactly when the current status is the
review-pending state `"review"`, in which case it sets the status to
`"completed"` and persists; in any other status it fails with the
must-be-in-review message and leaves the document (and the table) unchanged,
so a second approval attempt on an already-completed document fails rather
than silently succeeding. -/
theorem updateStatus_review_gate (db : Db) (id : Nat) (doc : Document)
    (hdb : db id = some doc) :
    ((∃ d, (updateStatus db id).1 = .ok d) ↔ doc.status = "review") ∧
    (doc.status = "review" →
      (updateStatus db id).1 = .ok { doc with status := "completed" } ∧
      (updateStatus db id).2 id = some { doc with status := "completed" } ∧
      (updateStatus (updateStatus db id).2 id).1 =
        .error "Document must be in review status to complete.") ∧
    (doc.status ≠ "review" →
      (updateStatus db id).1 =
        .error "Document must be in review status to complete." ∧
      (updateStatus db id).2 = db) := by
  by_cases h : doc.status = "review"
  · rw [updateStatus_found_review hdb h]
    refine ⟨⟨fun _ => h, fun _ => ⟨_, rfl⟩⟩, fun _ => ⟨rfl, by simp, ?_⟩,
      fun hcon => absurd h hcon⟩
    have hdb2 : ((fun j => if j = id then
        some { doc with status := "completed" } else db j) : Db) id =
        some { doc with status := "completed" } := by simp
    rw [show ((Except.ok { doc with status := "completed" },
        fun j => if j = id then some { doc with status := "completed" }
          else db j) : Except String Document × Db).2 =
        fun j => if j = id then some { doc with status := "completed" }
          else db j from rfl]
    rw [updateStatus_found_other hdb2 (by simp)]
  · rw [updateStatus_found_other hdb h]
    refine ⟨⟨?_, fun hcon => absurd hcon h⟩,
      fun hcon => absurd hcon h, fun _ => ⟨rfl, rfl⟩⟩
    rintro ⟨d, hd⟩
    cases hd

/-- Witness for C3 at a concrete table: a document in `"review"` is approved
to `"completed"`, and the re-approval fails. -/
theorem updateStatus_review_gate_witness :
    ((fun j => if j = 1 then some
        { id := 1, filename := "a.pdf", fileSize := 5,
          mimeType := "application/pdf", status := "review",
          storedPath := some "1/a.pdf", extractedData := none }
      else none) : Db) 1 = some
        { id := 1, filename := "a.pdf", fileSize := 5,
          mimeType := "application/pdf", status := "review",
          storedPath := some "1/a.pdf", extractedData := none } ∧
    ((∃ d, (updateStatus (fun j => if j = 1 then some
        { id := 1, filename := "a.pdf", fileSize := 5,
          mimeType := "application/pdf", status := "review",
          storedPath := some "1/a.pdf", extractedData := none }
      else none) 1).1 = .ok d) ↔
      ({ id := 1, filename := "a.pdf", fileSize := 5,
          mimeType := "application/pdf", status := "review",
          storedPath := some "1/a.pdf", extractedData := none } :
        Document).status = "review") :=
  ⟨rfl, (updateStatus_review_gate _ 1 _ rfl).1⟩

/-- C6 (amended): for every successfully parsed AI-response object, the
post-parse validation raises the missing-required-fields error exactly when at
least one of `documentType`, `vendor`, `date`, `description` is absent or
falsy (the empty string); an object in which all four are present and
nonempty is accepted even with `amount` and `lineItems` absent. -/
theorem extractDataFromText_validation (obj : ParsedObj) :
    (extractDataFromText (.ok obj) = .ok obj ↔
      ((obj.documentType ≠ none ∧ obj.documentType ≠ some "") ∧
       (obj.vendor ≠ none ∧ obj.vendor ≠ some "") ∧
       (obj.date ≠ none ∧ obj.date ≠ some "") ∧
       (obj.description ≠ none ∧ obj.description ≠ some ""))) ∧
    (extractDataFromText (.ok obj) =
        .error "Failed to extract data from text: Missing required fields in extracted data" ↔
      ¬((obj.documentType ≠ none ∧ obj.documentType ≠ some "") ∧
        (obj.vendor ≠ none ∧ obj.vendor ≠ some "") ∧
        (obj.date ≠ none ∧ obj.date ≠ some "") ∧
        (obj.description ≠ none ∧ obj.description ≠ some ""))) := by
  simp only [extractDataFromText]
  by_cases h : jsTruthyStr obj.documentType ∧ jsTruthyStr obj.vendor ∧
      jsTruthyStr obj.date ∧ jsTruthyStr obj.description
  · rw [if_pos h]
    obtain ⟨h1, h2, h3, h4⟩ := h
    rw [jsTruthyStr_iff] at h1 h2 h3 h4
    constructor
    · exact ⟨fun _ => ⟨h1, h2, h3, h4⟩, fun _ => rfl⟩
    · constructor
      · intro hcon; cases hcon
      · intro hcon; exact absurd ⟨h1, h2, h3, h4⟩ hcon
  · rw [if_neg h]
    constructor
    · constructor
      · intro hcon; cases hcon
      · rintro ⟨h1, h2, h3, h4⟩
        exact absurd ⟨(jsTruthyStr_iff _).mpr h1, (jsTruthyStr_iff _).mpr h2,
          (jsTruthyStr_iff _).mpr h3, (jsTruthyStr_iff _).mpr h4⟩ h
    · constructor
      · rintro _ ⟨h1, h2, h3, h4⟩
        exact absurd ⟨(jsTruthyStr_iff _).mpr h1, (jsTruthyStr_iff _).mpr h2,
          (jsTruthyStr_iff _).mpr h3, (jsTruthyStr_iff _).mpr h4⟩ h
      · intro _; rfl

/-- Witness for C6 (amended) at a concrete object: all four required fields
present and nonempty, with `amount` and `lineItems` absent, is accepted. -/
theorem extractDataFromText_validation_witness :
    extractDataFromText (.ok ⟨some "invoice", some "Acme", none,
        some "2024-01-15", some "Jan invoice", none⟩) =
      .ok ⟨some "invoice", some "Acme", none, some "2024-01-15",
        some "Jan invoice", none⟩ :=
  (extractDataFromText_validation ⟨some "invoice", some "Acme", none,
      some "2024-01-15", some "Jan invoice", none⟩).1.mpr
    ⟨⟨by decide, by decide⟩, ⟨by decide, by decide⟩, ⟨by decide, by decide⟩,
      by decide, by decide⟩

/-- Counterexample to C6 as stated: an object in which all four required
fields are present (`documentType` is the empty string) is still rejected, so
"absent" does not capture the validation, which also rejects present-but-empty
fields. -/
theorem extractDataFromText_counterexample :
    (⟨some "", some "Acme", none, some "2024-01-15", some "Jan invoice",
        none⟩ : ParsedObj).documentType.isSome = true ∧
    (⟨some "", some "Acme", none, some "2024-01-15", some "Jan invoice",
        none⟩ : ParsedObj).vendor.isSome = true ∧
    (⟨some "", some "Acme", none, some "2024-01-15", some "Jan invoice",
        none⟩ : ParsedObj).date.isSome = true ∧
    (⟨some "", some "Acme", none, some "2024-01-15", some "Jan invoice",
        none⟩ : ParsedObj).description.isSome = true ∧
    extractDataFromText (.ok ⟨some "", some "Acme", none, some "2024-01-15",
        some "Jan invoice", none⟩) =
      .error "Failed to extract data from text: Missing required fields in extracted data" := by
  refine ⟨rfl, rfl, rfl, rfl, ?_⟩
  rfl

/-- C7: upload validation accepts exactly the candidates whose size is a
positive integer at most `MAX_FILE_SIZE` (the boundary size accepted) and
whose declared MIME type is in the allow-list; a rejected candidate gets the
corresponding reason and causes no side effect — the mutation body never runs,
so no record is persisted and no file is written. -/
theorem uploadValidate_spec (size : Nat) (mime : String) :
    ((uploadValidate size mime = .ok ()) ↔
      (0 < size ∧ size ≤ MAX_FILE_SIZE ∧ mime ∈ ALLOWED_MIME_TYPES)) ∧
    (size = MAX_FILE_SIZE → mime ∈ ALLOWED_MIME_TYPES →
      uploadValidate size mime = .ok ()) ∧
    (MAX_FILE_SIZE < size →
      uploadValidate size mime = .error "File size exceeds maximum of 10MB") ∧
    (0 < size → size ≤ MAX_FILE_SIZE → mime ∉ ALLOWED_MIME_TYPES →
      uploadValidate size mime =
        .error ("File type not allowed. Allowed: " ++
          ", ".intercalate ALLOWED_MIME_TYPES)) ∧
    (∀ env id name e, uploadValidate size mime = .error e →
      documentsUpload env id name mime size = .error e) := by
  have hmem : (ALLOWED_MIME_TYPES.contains mime = true) ↔ mime ∈ ALLOWED_MIME_TYPES :=
    List.elem_iff
  have hok : 0 < size → size ≤ MAX_FILE_SIZE → mime ∈ ALLOWED_MIME_TYPES →
      uploadValidate size mime = .ok () := by
    intro hpos hle hin
    unfold uploadValidate
    rw [if_neg (by omega), if_neg (by omega), if_neg (by simp [hin])]
  have herr0 : size = 0 →
      uploadValidate size mime = .error "Expected file, received null" := by
    intro h0
    unfold uploadValidate
    rw [if_pos h0]
  have herr1 : MAX_FILE_SIZE < size →
      uploadValidate size mime = .error "File size exceeds maximum of 10MB" := by
    intro hbig
    unfold uploadValidate
    rw [if_neg (by omega), if_pos (by omega)]
  have herr2 : 0 < size → size ≤ MAX_FILE_SIZE → mime ∉ ALLOWED_MIME_TYPES →
      uploadValidate size mime =
        .error ("File type not allowed. Allowed: " ++
          ", ".intercalate ALLOWED_MIME_TYPES) := by
    intro hpos hle hnot
    have hcf : ALLOWED_MIME_TYPES.contains mime = false := by
      by_contra hc
      simp only [Bool.not_eq_false] at hc
      exact hnot (hmem.mp hc)
    unfold uploadValidate
    rw [if_neg (by omega), if_neg (by omega), if_pos (by simp [hnot])]
  refine ⟨?_,
    fun hsz hin => hok (by rw [hsz]; decide) (le_of_eq hsz) hin,
    herr1, herr2, ?_⟩
  · constructor
    · intro hv
      by_cases h0 : size = 0
      · rw [herr0 h0] at hv; cases hv
      · by_cases hbig : MAX_FILE_SIZE < size
        · rw [herr1 hbig] at hv; cases hv
        · by_cases hin : mime ∈ ALLOWED_MIME_TYPES
          · exact ⟨by omega, by omega, hin⟩
          · rw [herr2 (by omega) (by omega) hin] at hv; cases hv
    · rintro ⟨hpos, hle, hin⟩
      exact hok hpos hle hin
  · intro env id name e herr
    unfold documentsUpload
    rw [herr]

/-- Witness for C7: the boundary size with an allowed type is accepted, and an
oversized candidate is rejected with the size reason. -/
theorem uploadValidate_spec_witness :
    uploadValidate 10485760 "application/pdf" = .ok () ∧
    uploadValidate 10485761 "application/pdf" =
      .error "File size exceeds maximum of 10MB" :=
  ⟨(uploadValidate_spec 10485760 "application/pdf").2.1 (by decide) (by decide),
   (uploadValidate_spec 10485761 "application/pdf").2.2.1 (by decide)⟩

/-- C1: for a PDF upload in which the disk write, text extraction and
structured extraction all succeed, the returned record has status `"review"`,
`storedPath` set to the path returned by the storage service, and
`extractedData` present with at least `documentType`, `vendor`, `date` and
`description`; the persisted status trace passes through `"uploading"`,
`"uploaded"` and `"processing"` before reaching `"review"`. -/
theorem upload_pdf_success_spec (env : UploadEnv) (id : Nat) (name : String)
    (size : Nat) (sp t : String) (obj : ParsedObj)
    (hsave : saveResult env id name = .ok sp)
    (ht : env.textResult = .ok t)
    (ha : extractDataFromText env.aiParsed = .ok obj) :
    (upload env id name "application/pdf" size).outcome = .ok () ∧
    (upload env id name "application/pdf" size).doc.status = "review" ∧
    (upload env id name "application/pdf" size).doc.storedPath = some sp ∧
    (upload env id name "application/pdf" size).doc.extractedData = some obj ∧
    (obj.documentType ≠ none ∧ obj.vendor ≠ none ∧ obj.date ≠ none ∧
      obj.description ≠ none) ∧
    (upload env id name "application/pdf" size).flushed =
      ["uploading", "uploading", "uploaded", "processing", "review"] := by
  rw [upload_pdf_ok size hsave ht ha]
  exact ⟨rfl, rfl, rfl, rfl, extractDataFromText_ok_fields ha, rfl⟩

/-- Witness for C1 at a concrete environment: a stored PDF whose AI response
parses to a full object ends at `"review"` with the object attached. -/
theorem upload_pdf_success_spec_witness :
    saveResult ⟨false, .ok "text", .ok ⟨some "invoice", some "Acme", some 500,
        some "2024-01-15", some "Jan invoice", none⟩⟩ 1 "inv.pdf" =
      .ok "1/inv.pdf" ∧
    (⟨false, .ok "text", .ok ⟨some "invoice", some "Acme", some 500,
        some "2024-01-15", some "Jan invoice", none⟩⟩ : UploadEnv).textResult =
      .ok "text" ∧
    extractDataFromText (⟨false, .ok "text", .ok ⟨some "invoice", some "Acme",
        some 500, some "2024-01-15", some "Jan invoice", none⟩⟩ :
        UploadEnv).aiParsed =
      .ok ⟨some "invoice", some "Acme", some 500, some "2024-01-15",
        some "Jan invoice", none⟩ ∧
    (upload ⟨false, .ok "text", .ok ⟨some "invoice", some "Acme", some 500,
        some "2024-01-15", some "Jan invoice", none⟩⟩ 1 "inv.pdf"
      "application/pdf" 100).doc.status = "review" ∧
    (upload ⟨false, .ok "text", .ok ⟨some "invoice", some "Acme", some 500,
        some "2024-01-15", some "Jan invoice", none⟩⟩ 1 "inv.pdf"
      "application/pdf" 100).flushed =
      ["uploading", "uploading", "uploaded", "processing", "review"] :=
  ⟨rfl, rfl, rfl,
   (upload_pdf_success_spec ⟨false, .ok "text", .ok ⟨some "invoice",
      some "Acme", some 500, some "2024-01-15", some "Jan invoice", none⟩⟩
      1 "inv.pdf" 100 "1/inv.pdf" "text" ⟨some "invoice", some "Acme",
      some 500, some "2024-01-15", some "Jan invoice", none⟩
      rfl rfl rfl).2.1,
   (upload_pdf_success_spec ⟨false, .ok "text", .ok ⟨some "invoice",
      some "Acme", some 500, some "2024-01-15", some "Jan invoice", none⟩⟩
      1 "inv.pdf" 100 "1/inv.pdf" "text" ⟨some "invoice", some "Acme",
      some 500, some "2024-01-15", some "Jan invoice", none⟩
      rfl rfl rfl).2.2.2.2.2⟩

/-- C2 (amended): in the main pipeline every upload failing after record
creation is left at status `"error"` (persisted by the last flush before the
re-throw) regardless of whether the bytes were already stored — `storedPath`
alone distinguishes the failing stage; the variant pipeline's catch sets
`PARSE_ERROR` when `storedPath` is set and `ERROR` otherwise; in both
pipelines no failed upload ends in a non-terminal, non-error status. -/
theorem upload_failure_statuses (env : UploadEnv) (id : Nat)
    (name mime : String) (size : Nat) :
    ((upload env id name mime size).outcome.isOk = false →
      (upload env id name mime size).doc.status = "error" ∧
      (upload env id name mime size).flushed.getLast? = some "error") ∧
    ((uploadVariant env id name mime size).outcome.isOk = false →
      (uploadVariant env id name mime size).doc.status =
        (if (uploadVariant env id name mime size).doc.storedPath.isSome
          then STATUS_PARSE_ERROR else "error") ∧
      (uploadVariant env id name mime size).flushed.getLast? =
        some (uploadVariant env id name mime size).doc.status ∧
      ((uploadVariant env id name mime size).doc.status = STATUS_PARSE_ERROR ∨
        (uploadVariant env id name mime size).doc.status = "error")) := by
  constructor
  · intro hfail
    cases hs : saveResult env id name with
    | error e => rw [upload_save_error mime size hs]; exact ⟨rfl, rfl⟩
    | ok sp =>
      by_cases hm : mime = "application/pdf"
      · subst hm
        cases ht : env.textResult with
        | error e => rw [upload_pdf_text_error size hs ht]; exact ⟨rfl, rfl⟩
        | ok t =>
          cases ha : extractDataFromText env.aiParsed with
          | error e => rw [upload_pdf_ai_error size hs ht ha]; exact ⟨rfl, rfl⟩
          | ok obj =>
            rw [upload_pdf_ok size hs ht ha] at hfail
            cases hfail
      · rw [upload_nonpdf_ok mime size hs hm] at hfail
        cases hfail
  · intro hfail
    cases hs : saveResult env id name with
    | error e => rw [uploadVariant_save_error mime size hs]; exact ⟨rfl, rfl, Or.inr rfl⟩
    | ok sp =>
      by_cases hm : mime = "application/pdf"
      · subst hm
        cases ht : env.textResult with
        | error e =>
          rw [uploadVariant_pdf_text_error size hs ht]
          exact ⟨rfl, rfl, Or.inl rfl⟩
        | ok t =>
          cases ha : extractDataFromText env.aiParsed with
          | error e =>
            rw [uploadVariant_pdf_ai_error size hs ht ha]
            exact ⟨rfl, rfl, Or.inl rfl⟩
          | ok obj =>
            rw [uploadVariant_pdf_ok size hs ht ha] at hfail
            cases hfail
      · rw [uploadVariant_nonpdf_ok mime size hs hm] at hfail
        cases hfail

/-- Witness for C2 (amended) at a concrete environment: a stored PDF with a
failing text extraction ends at `"error"` in the main pipeline and at
`PARSE_ERROR` in the variant pipeline. -/
theorem upload_failure_statuses_witness :
    (upload ⟨false, .error "Failed to extract text from PDF",
        .ok ⟨none, none, none, none, none, none⟩⟩ 1 "inv.pdf"
      "application/pdf" 4).outcome.isOk = false ∧
    (upload ⟨false, .error "Failed to extract text from PDF",
        .ok ⟨none, none, none, none, none, none⟩⟩ 1 "inv.pdf"
      "application/pdf" 4).doc.status = "error" ∧
    (uploadVariant ⟨false, .error "Failed to extract text from PDF",
        .ok ⟨none, none, none, none, none, none⟩⟩ 1 "inv.pdf"
      "application/pdf" 4).doc.status =
      (if (uploadVariant ⟨false, .error "Failed to extract text from PDF",
          .ok ⟨none, none, none, none, none, none⟩⟩ 1 "inv.pdf"
        "application/pdf" 4).doc.storedPath.isSome
        then STATUS_PARSE_ERROR else "error") :=
  ⟨rfl,
   ((upload_failure_statuses ⟨false, .error "Failed to extract text from PDF",
      .ok ⟨none, none, none, none, none, none⟩⟩ 1 "inv.pdf"
      "application/pdf" 4).1 rfl).1,
   ((upload_failure_statuses ⟨false, .error "Failed to extract text from PDF",
      .ok ⟨none, none, none, none, none, none⟩⟩ 1 "inv.pdf"
      "application/pdf" 4).2 rfl).1⟩

/-- Counterexample to C2 as stated: in the main pipeline a PDF whose bytes
were stored (`storedPath` set) and whose text extraction then fails is left at
status `"error"`, not at the parse-failure state, so the failure status does
not distinguish the failing stage. -/
theorem upload_failure_counterexample :
    (upload ⟨false, .error "Failed to extract text from PDF",
        .ok ⟨none, none, none, none, none, none⟩⟩ 1 "inv.pdf"
      "application/pdf" 4).doc.storedPath.isSome = true ∧
    (upload ⟨false, .error "Failed to extract text from PDF",
        .ok ⟨none, none, none, none, none, none⟩⟩ 1 "inv.pdf"
      "application/pdf" 4).outcome.isOk = false ∧
    (upload ⟨false, .error "Failed to extract text from PDF",
        .ok ⟨none, none, none, none, none, none⟩⟩ 1 "inv.pdf"
      "application/pdf" 4).doc.status = "error" ∧
    (upload ⟨false, .error "Failed to extract text from PDF",
        .ok ⟨none, none, none, none, none, none⟩⟩ 1 "inv.pdf"
      "application/pdf" 4).doc.status ≠ STATUS_PARSE_ERROR := by
  refine ⟨rfl, rfl, rfl, ?_⟩
  decide

/-- C9: `extractedData` is only ever populated for `application/pdf`
documents: a non-PDF upload never sets it and, when it succeeds, terminates at
the upload-complete status `"uploaded"`; the only other mutating operation,
`updateStatus`, changes neither `extractedData` nor `mimeType`. -/
theorem upload_nonpdf_no_extraction (env : UploadEnv) (id : Nat)
    (name mime : String) (size : Nat) (hm : mime ≠ "application/pdf") :
    (upload env id name mime size).doc.extractedData = none ∧
    ((upload env id name mime size).outcome.isOk = true →
      (upload env id name mime size).doc.status = "uploaded") ∧
    (∀ (db : Db) (i : Nat) (doc d : Document), db i = some doc →
      (updateStatus db i).1 = .ok d →
      d.extractedData = doc.extractedData ∧ d.mimeType = doc.mimeType) := by
  refine ⟨?_, ?_, ?_⟩
  · cases hs : saveResult env id name with
    | error e => rw [upload_save_error mime size hs]
    | ok sp => rw [upload_nonpdf_ok mime size hs hm]
  · intro hout
    cases hs : saveResult env id name with
    | error e =>
      rw [upload_save_error mime size hs] at hout
      cases hout
    | ok sp => rw [upload_nonpdf_ok mime size hs hm]
  · intro db i doc d hdb hok
    by_cases h : doc.status = "review"
    · rw [updateStatus_found_review hdb h] at hok
      have hd : Except.ok ({ doc with status := "completed" } : Document) =
          Except.ok d := hok
      have hd2 : ({ doc with status := "completed" } : Document) = d := by
        injection hd
      rw [← hd2]
      exact ⟨rfl, rfl⟩
    · rw [updateStatus_found_other hdb h] at hok
      cases hok

/-- Witness for C9 at a concrete environment: a stored `text/plain` upload
ends at `"uploaded"` with no `extractedData`. -/
theorem upload_nonpdf_no_extraction_witness :
    ("text/plain" ≠ "application/pdf") ∧
    (upload ⟨false, .ok "t", .error "x"⟩ 1 "notes.txt" "text/plain"
      12).doc.extractedData = none ∧
    (upload ⟨false, .ok "t", .error "x"⟩ 1 "notes.txt" "text/plain"
      12).doc.status = "uploaded" :=
  ⟨by decide,
   (upload_nonpdf_no_extraction ⟨false, .ok "t", .error "x"⟩ 1 "notes.txt"
      "text/plain" 12 (by decide)).1,
   (upload_nonpdf_no_extraction ⟨false, .ok "t", .error "x"⟩ 1 "notes.txt"
      "text/plain" 12 (by decide)).2.1 rfl⟩

/-- C10: two successful `saveFile` calls with distinct record ids return
distinct relative paths — the first path segment is the decimal rendering of
the id and the sanitized name contains no separator, so files stored for
distinct documents never collide. -/
theorem saveFile_distinct_paths (id1 id2 : Nat) (n1 n2 p1 p2 : String)
    (hne : id1 ≠ id2) (h1 : saveFile id1 n1 = .ok p1)
    (h2 : saveFile id2 n2 = .ok p2) :
    p1 ≠ p2 ∧
    (splitComps p1.toList).head? = some (toString id1).toList ∧
    (splitComps p2.toList).head? = some (toString id2).toList ∧
    '/' ∉ (sanitizeFilename n1).toList ∧
    '/' ∉ (sanitizeFilename n2).toList := by
  obtain ⟨-, -, -, s1slash, hp1⟩ := saveFile_ok_shape h1
  obtain ⟨-, -, -, s2slash, hp2⟩ := saveFile_ok_shape h2
  have hid1 := idStr_props id1
  have hid2 := idStr_props id2
  refine ⟨?_, by rw [saveFile_ok_split h1]; rfl,
    by rw [saveFile_ok_split h2]; rfl, s1slash, s2slash⟩
  intro heq
  have hlists : p1.toList = p2.toList := by rw [heq]
  rw [hp1, hp2] at hlists
  have hinj := append_slash_inj _ hid1.2.1 hid2.2.1 hlists
  have hids : toString id1 = toString id2 := string_eq_iff_toList.mpr hinj.1
  have hrepr : Nat.repr id1 = Nat.repr id2 := hids
  exact hne (natRepr_injective hrepr)

/-- Witness for C10 at concrete saves: ids 1 and 2 yield distinct paths. -/
theorem saveFile_distinct_paths_witness :
    (1 ≠ 2) ∧ saveFile 1 "a.pdf" = .ok "1/a.pdf" ∧
    saveFile 2 "b c.pdf" = .ok "2/b_c.pdf" ∧
    ("1/a.pdf" : String) ≠ "2/b_c.pdf" :=
  ⟨by decide, rfl, rfl,
   (saveFile_distinct_paths 1 2 "a.pdf" "b c.pdf" "1/a.pdf" "2/b_c.pdf"
      (by decide) rfl rfl).1⟩

/-- C4 (amended): every path returned by `saveFile` is the two-segment
relative path id-slash-sanitized-name, contains no `".."` segment, is not
absolute, and resolves to a location strictly inside the upload root;
`getFilePath` raises its error exactly for inputs whose normalization starts
with the two characters `".."` (which also rejects a harmless leading
component such as `"..foo"`) or is absolute, and every accepted input resolves
to the upload root followed by its traversal-free normalized components (the
inputs `"."` and `""` resolve to the root itself). -/
theorem path_containment_spec :
    (∀ (id : Nat) (name p : String), saveFile id name = .ok p →
      splitComps p.toList =
        [(toString id).toList, (sanitizeFilename name).toList] ∧
      ['.', '.'] ∉ splitComps p.toList ∧
      isAbsolutePath p.toList = false ∧
      ∃ q, getFilePath p = .ok q ∧
        splitComps q.toList = "uploads".toList :: splitComps p.toList) ∧
    (∀ sp : String, (∃ e, getFilePath sp = .error e) ↔
      (['.', '.'].isPrefixOf (posixNormalize sp.toList) = true ∨
        isAbsolutePath (posixNormalize sp.toList) = true)) ∧
    (∀ sp q : String, getFilePath sp = .ok q →
      ['.', '.'] ∉ normComps sp.toList ∧
      splitComps q.toList = "uploads".toList :: normComps sp.toList) := by
  refine ⟨?_, getFilePath_error_iff, fun sp q h => getFilePath_ok_shape h⟩
  intro id name p h
  obtain ⟨hs1, hs2, hs3, hs4, hp⟩ := saveFile_ok_shape h
  have hid := idStr_props id
  have hsplit := saveFile_ok_split h
  have hnodots : ['.', '.'] ∉ splitComps p.toList := by
    rw [hsplit]
    intro hmem
    rcases List.mem_cons.mp hmem with hc | hmem
    · exact hid.2.2.2 hc.symm
    · rcases List.mem_cons.mp hmem with hc | hmem
      · exact hs3 hc.symm
      · cases hmem
  have habs : isAbsolutePath p.toList = false := by
    rw [hp]; exact idStr_append_not_abs id _
  have hcompsP : normComps p.toList =
      [(toString id).toList, (sanitizeFilename name).toList] := by
    unfold normComps
    rw [hsplit, foldl_normPush_clean _ _ ?_]
    · rfl
    · intro l hl
      rcases List.mem_cons.mp hl with rfl | hl
      · exact ⟨hid.2.2.1, hid.2.2.2⟩
      · rcases List.mem_cons.mp hl with rfl | hl
        · exact ⟨hs2, hs3⟩
        · cases hl
  have hnorm : posixNormalize p.toList = p.toList := by
    unfold posixNormalize
    rw [hcompsP, if_neg (by simp), habs]
    simp only [Bool.false_eq_true, if_false]
    rw [hp]
    rfl
  have hnabs : isAbsolutePath (posixNormalize p.toList) = false := by
    rw [hnorm]; exact habs
  have hnpref : ['.', '.'].isPrefixOf (posixNormalize p.toList) = false := by
    rw [hnorm, hp]
    cases hh : (toString id).toList with
    | nil => exact absurd hh hid.1
    | cons x xs =>
      have hx : x.isDigit = true :=
        (natRepr_spec id).2.1 x
          (show x ∈ (toString id).toList by
            rw [hh]; exact List.mem_cons_self x xs)
      rw [List.cons_append]
      exact not_dotdot_prefix_of_digit hx _
  have hacc : getFilePath p =
      .ok (joinPath UPLOADS_DIR.toList (posixNormalize p.toList)).asString := by
    unfold getFilePath
    rw [if_neg ?_]
    rintro (hc | hc)
    · have hc2 : ['.', '.'].isPrefixOf (posixNormalize p.toList) = true := hc
      rw [hnpref] at hc2; cases hc2
    · rw [hnabs] at hc; cases hc
  refine ⟨hsplit, hnodots, habs,
    (joinPath UPLOADS_DIR.toList (posixNormalize p.toList)).asString, hacc, ?_⟩
  have := getFilePath_ok_shape hacc
  rw [this.2, hcompsP, hsplit]

/-- Witness for C4 (amended) at a concrete save and resolution: id 7 with a
space-bearing name stores at the sanitized two-segment path, which resolves
strictly inside the root. -/
theorem path_containment_spec_witness :
    saveFile 7 "report final.pdf" = .ok "7/report_final.pdf" ∧
    splitComps ("7/report_final.pdf" : String).toList =
      [(toString 7).toList, (sanitizeFilename "report final.pdf").toList] ∧
    getFilePath "7/report_final.pdf" = .ok "uploads/7/report_final.pdf" :=
  ⟨rfl,
   (path_containment_spec.1 7 "report final.pdf" "7/report_final.pdf" rfl).1,
   by rfl⟩

/-- Counterexample to C4 as stated: the input `"..foo"` is relative and its
normalization has no `".."` segment (its only segment is `"..foo"`), yet
`getFilePath` rejects it — the read-time check tests a two-character string
prefix, not a leading `".."` segment. -/
theorem path_containment_counterexample :
    getFilePath "..foo" = .error "Invalid stored path" ∧
    isAbsolutePath (posixNormalize ("..foo" : String).toList) = false ∧
    splitComps (posixNormalize ("..foo" : String).toList) =
      [['.', '.', 'f', 'o', 'o']] ∧
    ['.', '.'] ∉ splitComps (posixNormalize ("..foo" : String).toList) := by
  refine ⟨rfl, rfl, rfl, ?_⟩
  decide

/-- C8: the file-serving endpoint responds 404 when the record is absent, has
no `storedPath`, or the stored file is missing (or unresolvable) on disk; for
an intact file and no `Range` header it responds 200 with the full content and
matching `Content-Length`; for `Range: bytes=0-99` on a file of at least 100
bytes it responds 206 with exactly 100 bytes, the correct `Content-Range` and
`Content-Length` 100. -/
theorem serveFile_spec (db : Db) (fsys : Fs) (id : Nat) :
    (db id = none →
      ∀ range, serveDocumentFile db fsys id range = { status := 404 }) ∧
    (∀ doc, db id = some doc → doc.storedPath = none →
      ∀ range, serveDocumentFile db fsys id range = { status := 404 }) ∧
    (∀ doc sp, db id = some doc → doc.storedPath = some sp →
      (∀ e, getFilePath sp = .error e →
        ∀ range, serveDocumentFile db fsys id range = { status := 404 }) ∧
      (∀ fp, getFilePath sp = .ok fp → fsys fp = none →
        ∀ range, serveDocumentFile db fsys id range = { status := 404 }) ∧
      (∀ fp content, getFilePath sp = .ok fp → fsys fp = some content →
        serveDocumentFile db fsys id none =
          { status := 200, contentType := some doc.mimeType,
            acceptRanges := some "bytes", contentRange := none,
            contentLength := some content.length, body := content } ∧
        (100 ≤ content.length →
          serveDocumentFile db fsys id (some "bytes=0-99") =
            { status := 206, contentType := some doc.mimeType,
              acceptRanges := some "bytes",
              contentRange := some ("bytes 0-99/" ++ toString content.length),
              contentLength := some 100, body := content.take 100 } ∧
          (content.take 100).length = 100))) := by
  refine ⟨?_, ?_, ?_⟩
  · intro h range
    simp only [serveDocumentFile, h]
  · intro doc hdb hsp range
    simp only [serveDocumentFile, hdb, hsp]
  · intro doc sp hdb hsp
    refine ⟨?_, ?_, ?_⟩
    · intro e he range
      simp only [serveDocumentFile, hdb, hsp, he]
    · intro fp hfp hmiss range
      simp only [serveDocumentFile, hdb, hsp, hfp, hmiss]
    · intro fp content hfp hcont
      refine ⟨serve_found_full hdb hsp hfp hcont, fun hlen => ⟨?_, ?_⟩⟩
      · rw [serve_found_range "bytes=0-99" hdb hsp hfp hcont,
          rangeResponse_0_99]
      · rw [List.length_take]
        omega

/-- Witness for C8 at a concrete table and disk: a 120-byte stored file served
whole and as a 100-byte 206 range. -/
theorem serveFile_spec_witness :
    ((fun j => if j = 1 then some
        ({ id := 1, filename := "a.pdf", fileSize := 120,
           mimeType := "application/pdf", status := "review",
           storedPath := some "1/a.pdf", extractedData := none } : Document)
      else none) : Db) 1 = some
        { id := 1, filename := "a.pdf", fileSize := 120,
          mimeType := "application/pdf", status := "review",
          storedPath := some "1/a.pdf", extractedData := none } ∧
    getFilePath "1/a.pdf" = .ok "uploads/1/a.pdf" ∧
    ((fun p => if p = "uploads/1/a.pdf" then some (List.range 120)
      else none) : Fs) "uploads/1/a.pdf" = some (List.range 120) ∧
    100 ≤ (List.range 120).length ∧
    serveDocumentFile
      (fun j => if j = 1 then some
        { id := 1, filename := "a.pdf", fileSize := 120,
          mimeType := "application/pdf", status := "review",
          storedPath := some "1/a.pdf", extractedData := none }
        else none)
      (fun p => if p = "uploads/1/a.pdf" then some (List.range 120) else none)
      1 (some "bytes=0-99") =
      { status := 206, contentType := some "application/pdf",
        acceptRanges := some "bytes",
        contentRange := some ("bytes 0-99/" ++ toString (List.range 120).length),
        contentLength := some 100, body := (List.range 120).take 100 } :=
  ⟨rfl, rfl, rfl, by decide,
   (((serveFile_spec
      (fun j => if j = 1 then some
        { id := 1, filename := "a.pdf", fileSize := 120,
          mimeType := "application/pdf", status := "review",
          storedPath := some "1/a.pdf", extractedData := none }
        else none)
      (fun p => if p = "uploads/1/a.pdf" then some (List.range 120) else none)
      1).2.2 _ "1/a.pdf" rfl rfl).2.2 "uploads/1/a.pdf" (List.range 120)
      rfl rfl).2 (by decide) |>.1⟩

/-- C5 (amended): the JSON-recovery function strips a fenced block if present
and then, in all cases, applies the brace-span step to the (possibly
stripped) text: when the first opening brace strictly precedes the last
closing brace it returns exactly that span (which therefore starts with an
opening and ends with a closing brace); otherwise — including a fenced input
whose content has no brace span — it fails with the no-JSON-object error. -/
theorem extractJSON_amended (t : String) :
    (∀ i j, idxOfChar '\x7b' (stripCodeFence (jsTrimL t.toList)) = some i →
      lastIdxOfChar '\x7d' (stripCodeFence (jsTrimL t.toList)) = some j →
      i < j →
      extractJSON t = .ok (List.asString
        (((stripCodeFence (jsTrimL t.toList)).drop i).take (j + 1 - i)))) ∧
    ((idxOfChar '\x7b' (stripCodeFence (jsTrimL t.toList)) = none ∨
      lastIdxOfChar '\x7d' (stripCodeFence (jsTrimL t.toList)) = none ∨
      (∀ i j, idxOfChar '\x7b' (stripCodeFence (jsTrimL t.toList)) = some i →
        lastIdxOfChar '\x7d' (stripCodeFence (jsTrimL t.toList)) = some j →
        j ≤ i)) →
      extractJSON t = .error "No JSON object found in response") ∧
    (∀ s, extractJSON t = .ok s →
      s.toList.head? = some '\x7b' ∧ s.toList.getLast? = some '\x7d') := by
  refine ⟨?_, ?_, ?_⟩
  · intro i j hi hj hlt
    simp only [extractJSON, braceSpan, hi, hj]
    rw [if_pos hlt]
    rfl
  · intro h
    cases hi : idxOfChar '\x7b' (stripCodeFence (jsTrimL t.toList)) with
    | none => simp only [extractJSON, braceSpan, hi]; rfl
    | some i =>
      cases hj : lastIdxOfChar '\x7d' (stripCodeFence (jsTrimL t.toList)) with
      | none => simp only [extractJSON, braceSpan, hi, hj]; rfl
      | some j =>
        have hle : j ≤ i := by
          rcases h with h | h | h
          · rw [h] at hi; cases hi
          · rw [h] at hj; cases hj
          · exact h i j hi hj
        simp only [extractJSON, braceSpan, hi, hj]
        rw [if_neg (by omega)]
        rfl
  · intro s hs
    unfold extractJSON at hs
    cases hb : braceSpan (stripCodeFence (jsTrimL t.toList)) with
    | error e => rw [hb] at hs; cases hs
    | ok l =>
      rw [hb] at hs
      have hsl : s = List.asString l := by
        simpa [Except.map] using hs.symm
      rw [hsl, toList_asString]
      exact braceSpan_ok_shape hb

/-- Witness for C5 (amended) at a concrete input: prose around a brace span is
cut down to exactly the span. -/
theorem extractJSON_amended_witness :
    idxOfChar '\x7b' (stripCodeFence (jsTrimL
      ("prose \x7b\"a\":1\x7d tail" : String).toList)) = some 6 ∧
    lastIdxOfChar '\x7d' (stripCodeFence (jsTrimL
      ("prose \x7b\"a\":1\x7d tail" : String).toList)) = some 12 ∧
    extractJSON "prose \x7b\"a\":1\x7d tail" = .ok (List.asString
      (((stripCodeFence (jsTrimL
        ("prose \x7b\"a\":1\x7d tail" : String).toList)).drop 6).take
        (12 + 1 - 6))) :=
  ⟨rfl, rfl,
   (extractJSON_amended "prose \x7b\"a\":1\x7d tail").1 6 12 rfl rfl
     (by decide)⟩

/-- Counterexample to C5 as stated: for a fenced block whose content carries
prose around the JSON object, the code applies the brace-span step to the
stripped content and returns only the span, while the claim's description
("strips a fenced block if present, otherwise takes the brace span") returns
the whole stripped block for parsing. -/
theorem extractJSON_counterexample :
    extractJSON "```json\nnote: \x7b\"a\":1\x7d end\n```" =
      .ok "\x7b\"a\":1\x7d" ∧
    claimedExtractJSON "```json\nnote: \x7b\"a\":1\x7d end\n```" =
      .ok "note: \x7b\"a\":1\x7d end" ∧
    extractJSON "```json\nnote: \x7b\"a\":1\x7d end\n```" ≠
      claimedExtractJSON "```json\nnote: \x7b\"a\":1\x7d end\n```" := by
  refine ⟨rfl, rfl, ?_⟩
  intro h
  have h2 : (Except.ok ("\x7b\"a\":1\x7d" : String) : Except String String) =
      .ok "note: \x7b\"a\":1\x7d end" := h
  have h3 : ("\x7b\"a\":1\x7d" : String) = "note: \x7b\"a\":1\x7d end" := by
    injection h2
  exact absurd h3 (by decide)

end TodoApp
